import Mathlib

/-!
Shallow embedding of `grub-core/kern/disk.c` (GRUB 2.00+20130519): the generic
disk layer with its direct-mapped sector cache, partition-range adjustment,
read engine (head / agglomerated body / tail) and write engine
(read-modify-write and aligned bulk).

Constants that live in the header `grub/disk.h` (which is not part of `src/`)
are modelled from the spec: `GRUB_DISK_SECTOR_BITS = 9` (512-byte logical
sectors), `GRUB_DISK_CACHE_BITS = 6` (clusters of 64 logical sectors, 32768
bytes), `GRUB_DISK_CACHE_NUM = 1021` cache slots, and the unknown-size marker
`GRUB_DISK_SIZE_UNKNOWN` is modelled by `Option.none`.  The numeric literals
512, 64, 32768 and 1021 below always stand for these macros.

C `unsigned long` is modelled as a 64-bit quantity (`% 2^64`) and `unsigned`
as a 32-bit quantity (`% 2^32`) at the one place where the width is
observable (the cache index mix and the range walk).  Elsewhere machine
arithmetic that cannot wrap for ranges accepted by `grub_disk_adjust_range`
on realistic devices is modelled on `Nat` directly.  Bit tricks are written
arithmetically: `x & (2^k - 1)` as `x % 2^k`, `x & ~(2^k - 1)` as
`x - x % 2^k`, shifts as `>>>`, `<<<` or powers of two.

Byte buffers (the device contents, cache cluster buffers, caller buffers and
temporary buffers) are modelled as functions `Nat → Nat` from byte index to
byte value.  `grub_errno` is carried explicitly in the state, `grub_malloc`
failure is driven by an explicit oracle (`St.allocs`), and every driver
`read`/`write` call and every cache invalidation performed by the write path
is recorded in an event trace, in issue order.
-/

/-- Error codes (`grub_err_t`).  `minusOne` models the C expression
`(grub_err_t) -1` that `grub_disk_write` returns when
`grub_disk_adjust_range` fails.  Driver read/write failures (which set
`grub_errno` via `grub_error` inside the driver) are modelled uniformly as
`ioErr`. -/
inductive GErr where
  | noErr
  | outOfMemory
  | outOfRange
  | unknownDevice
  | ioErr
  | minusOne
  deriving DecidableEq

/-- One slot of the disk cache (`struct grub_disk_cache`): key fields
`dev_id`, `disk_id`, `sector`, an optional owned cluster buffer `data`
(byte index within the cluster to byte value; `Option.none` models a NULL
pointer) and the one-bit `lock`. -/
structure CacheEntry where
  dev_id : Nat
  disk_id : Nat
  sector : Nat
  data : Option (Nat → Nat)
  lock : Bool

/-- The zero-initialised slot: the C cache table is a static array, so every
field starts as zero / NULL. -/
def emptyEntry : CacheEntry :=
  { dev_id := 0, disk_id := 0, sector := 0, data := Option.none, lock := false }

/-- The cache table `grub_disk_cache_table`, indexed by slot number (only
indices below 1021 are ever produced by the hash). -/
abbrev Cache := Nat → CacheEntry

/-- Hash of `grub_disk_cache_get_index`:
`(dev_id * 524287UL + disk_id * 2606459UL + (unsigned) (sector >> GRUB_DISK_CACHE_BITS)) % GRUB_DISK_CACHE_NUM`.
The products and the sum are `unsigned long` arithmetic (64-bit, hence the
`% 2^64`), while the shifted sector is cast to `unsigned` (32-bit, hence the
`% 2^32`) before entering the sum. -/
def grub_disk_cache_get_index (dev_id disk_id sector : Nat) : Nat :=
  ((dev_id * 524287) % 2^64 + (disk_id * 2606459) % 2^64 + (sector >>> 6) % 2^32)
    % 2^64 % 1021

/-- Round a logical sector down to its cluster start:
`sector & ~(GRUB_DISK_CACHE_SIZE - 1)`. -/
def cluster_align (sector : Nat) : Nat := sector - sector % 64

/-- The body of `grub_disk_cache_invalidate` after the initial
`sector &= ~(GRUB_DISK_CACHE_SIZE - 1)`: if the hashed slot carries exactly
this key and owns a buffer, the buffer is freed (`data := Option.none`).
The C code momentarily sets `lock = 1` around the `grub_free` and resets it
to `0` right after with no intervening step, so the observable result is
`lock := false`.  Note the condition does not test the lock bit. -/
def grub_disk_cache_invalidate (dev_id disk_id sector : Nat) (c : Cache) : Cache :=
  let sector := cluster_align sector
  let index := grub_disk_cache_get_index dev_id disk_id sector
  let e := c index
  if e.dev_id = dev_id ∧ e.disk_id = disk_id ∧ e.sector = sector ∧ e.data.isSome = true then
    Function.update c index { e with data := Option.none, lock := false }
  else c

/-- `grub_disk_cache_invalidate_all`: every slot below `GRUB_DISK_CACHE_NUM`
whose buffer is present and whose lock bit is clear is freed; locked or empty
slots are skipped.  The C loop over the array acts on each slot
independently, so it is modelled pointwise. -/
def grub_disk_cache_invalidate_all (c : Cache) : Cache :=
  fun i =>
    let e := c i
    if i < 1021 ∧ e.data.isSome = true ∧ e.lock = false then
      { e with data := Option.none }
    else e

/-- `grub_disk_cache_fetch`: on a key match the lock bit is set and
`cache->data` is returned (this is the data pointer, which may be NULL even
though the key matched, e.g. after an invalidation of a zero-key slot); on a
key mismatch nothing changes and NULL is returned. -/
def grub_disk_cache_fetch (dev_id disk_id sector : Nat) (c : Cache) :
    Option (Nat → Nat) × Cache :=
  let index := grub_disk_cache_get_index dev_id disk_id sector
  let e := c index
  if e.dev_id = dev_id ∧ e.disk_id = disk_id ∧ e.sector = sector then
    (e.data, Function.update c index { e with lock := true })
  else (Option.none, c)

/-- `grub_disk_cache_unlock`: clear the lock bit if the slot still carries
this key, otherwise do nothing. -/
def grub_disk_cache_unlock (dev_id disk_id sector : Nat) (c : Cache) : Cache :=
  let index := grub_disk_cache_get_index dev_id disk_id sector
  let e := c index
  if e.dev_id = dev_id ∧ e.disk_id = disk_id ∧ e.sector = sector then
    Function.update c index { e with lock := false }
  else c

/-- `grub_disk_cache_store`: unconditionally evict the hashed slot (free its
buffer; the transient `lock = 1` around the free is again collapsed), then
allocate a fresh cluster buffer.  `allocOk` is the outcome of that
`grub_malloc`: on failure the function returns `grub_errno`
(`GRUB_ERR_OUT_OF_MEMORY`) with the slot left empty and unlocked; on success
the `GRUB_DISK_SECTOR_SIZE << GRUB_DISK_CACHE_BITS` bytes of `data` are
copied in and the key fields are set. -/
def grub_disk_cache_store (dev_id disk_id sector : Nat) (data : Nat → Nat)
    (allocOk : Bool) (c : Cache) : GErr × Cache :=
  let index := grub_disk_cache_get_index dev_id disk_id sector
  let e := c index
  if allocOk then
    (GErr.noErr,
      Function.update c index
        { dev_id := dev_id, disk_id := disk_id, sector := sector,
          data := Option.some (fun j => data j), lock := false })
  else
    (GErr.outOfMemory,
      Function.update c index { e with data := Option.none, lock := false })

/-- Claimed cache-index formula of C8, verbatim from the spec: exact
arithmetic with no truncation of the shifted cluster number. -/
def claim_cache_index (dev_id disk_id sector : Nat) : Nat :=
  (dev_id * 524287 + disk_id * 2606459 + (sector >>> 6)) % 1021

/-- The scanner `find_part_sep`: position of the first `,` that is not
escaped by a preceding `\`.  The C loop reads one character `c` per step; if
`c` is a backslash immediately followed by a comma both characters are
consumed, otherwise an unescaped comma ends the scan. -/
def find_part_sep : List Char → Option Nat
  | [] => Option.none
  | [c] => if c = ',' then Option.some 0 else Option.none
  | c :: c2 :: rest =>
      if c = '\\' ∧ c2 = ',' then (find_part_sep rest).map (fun i => i + 2)
      else if c = ',' then Option.some 0
      else (find_part_sep (c2 :: rest)).map (fun i => i + 1)

/-- The name-splitting step of `grub_disk_open` (lines 237-251 and 284): if
`find_part_sep` finds a separator at position `i`, the raw device name handed
to the drivers is the first `i` characters of `name` copied verbatim (the
`grub_memcpy` does not rewrite the `\,` escape), and the partition spec
passed to `grub_partition_probe` is everything after the comma.  Without a
separator the whole name is the device name. -/
def grub_disk_open_split (name : List Char) : List Char × Option (List Char) :=
  match find_part_sep name with
  | Option.some i => (name.take i, Option.some (name.drop (i + 1)))
  | Option.none => (name, Option.none)

/-- Spec-side description of a valid split position: a comma that is not
immediately preceded by a backslash. -/
def sepAt (name : List Char) (i : Nat) : Prop :=
  i < name.length ∧ name.getD i ' ' = ',' ∧ (i = 0 ∨ name.getD (i - 1) ' ' ≠ '\\')

/-- The driver walk of `grub_disk_open` (lines 255-270).  Each registered
driver is represented by the outcome of its `open (raw, disk)` call (a
failing driver returns the error it stored in `grub_errno`).  `GRUB_ERR_NONE`
stops the walk with that driver; `GRUB_ERR_UNKNOWN_DEVICE` is suppressed
(`grub_errno` is reset) and the next driver is tried; any other error aborts
the open.  When the list is exhausted the open fails with
`grub_error (GRUB_ERR_UNKNOWN_DEVICE, ...)` whose message interpolates the
disk name (the C format string quotes the name between a backquote and a
single quote; the model keeps only the words). -/
def grub_disk_open_scan (name : String) : List GErr → Except (GErr × Option String) Nat
  | [] => Except.error (GErr.unknownDevice, Option.some ("disk " ++ name ++ " not found"))
  | e :: rest =>
      if e = GErr.noErr then Except.ok 0
      else if e = GErr.unknownDevice then
        match grub_disk_open_scan name rest with
        | Except.ok i => Except.ok (i + 1)
        | Except.error err => Except.error err
      else Except.error (e, Option.none)

/-- A partition node: `start` and `len` in logical sectors, innermost first
(the C chain walks `part = disk->partition; part; part = part->parent`). -/
structure GPart where
  start : Nat
  len : Nat

/-- A disk handle.  `log_sector_size` is `L` (9 ≤ L ≤ 15 after a successful
open), `total_sectors` is in native sectors with `Option.none` for
`GRUB_DISK_SIZE_UNKNOWN`, `partition` is the chain innermost to outermost,
`read_hook` tells whether a read hook is installed. -/
structure Disk where
  dev_id : Nat
  id : Nat
  log_sector_size : Nat
  total_sectors : Option Nat
  partition : List GPart
  read_hook : Bool

/-- Needed sector count `(*offset + size + GRUB_DISK_SECTOR_SIZE - 1) >> GRUB_DISK_SECTOR_BITS`
as the 64-bit unsigned C expression computes it. -/
def need64 (offset size : Nat) : Nat := ((offset + size + 511) % 2^64) >>> 9

/-- The partition loop of `grub_disk_adjust_range`: for each partition,
fail if `*sector >= len || len - *sector < need`, else add `part->start`
(64-bit unsigned addition). -/
def adjust_parts (need : Nat) : List GPart → Nat → Option Nat
  | [], s => Option.some s
  | p :: rest, s =>
      if s ≥ p.len ∨ p.len - s < need then Option.none
      else adjust_parts need rest ((s + p.start) % 2^64)

/-- `grub_disk_adjust_range`: normalise (`*sector += *offset >> 9`,
`*offset &= 511`), walk the partition chain, then check against
`total_sectors << (log_sector_size - 9)` when the size is known.  All
arithmetic is 64-bit unsigned, hence the explicit `% 2^64` on additions and
the shift. -/
def grub_disk_adjust_range (d : Disk) (sector offset size : Nat) :
    Except GErr (Nat × Nat) :=
  let s1 := (sector + (offset >>> 9)) % 2^64
  let o1 := offset % 512
  match adjust_parts (need64 o1 size) d.partition s1 with
  | Option.none => Except.error GErr.outOfRange
  | Option.some s2 =>
      match d.total_sectors with
      | Option.none => Except.ok (s2, o1)
      | Option.some t =>
          let tl := (t * 2^(d.log_sector_size - 9)) % 2^64
          if tl ≤ s2 ∨ need64 o1 size > tl - s2 then Except.error GErr.outOfRange
          else Except.ok (s2, o1)

/-- Spec-side range walk for C2, with exact (unbounded) arithmetic and
`need = ⌈(offset + size) / 512⌉` written as `(offset + size + 511) / 512`:
walking innermost to outermost, the walk succeeds on a partition when
`sector < len` and `need ≤ len - sector`, accumulating each start. -/
def specWalk (need : Nat) : List GPart → Nat → Option Nat
  | [], s => Option.some s
  | p :: rest, s =>
      if s < p.len ∧ need ≤ p.len - s then specWalk need rest (s + p.start)
      else Option.none

/-- Spec-side `adjust_range` for C2, assembled from the claim text: normalise
sector and offset, walk the chain, then apply the same containment check to
`total_sectors` converted to logical sectors. -/
def adjust_range_spec (d : Disk) (sector offset size : Nat) : Option (Nat × Nat) :=
  let s1 := sector + offset / 512
  let o1 := offset % 512
  let need := (o1 + size + 511) / 512
  match specWalk need d.partition s1 with
  | Option.none => Option.none
  | Option.some s2 =>
      match d.total_sectors with
      | Option.none => Option.some (s2, o1)
      | Option.some t =>
          let tl := t * 2^(d.log_sector_size - 9)
          if s2 < tl ∧ need ≤ tl - s2 then Option.some (s2, o1) else Option.none

/-- Sum of the partition starts, used to state the no-overflow hypothesis of
the C2 theorem. -/
def partsStartSum (ps : List GPart) : Nat := (ps.map GPart.start).sum

/-- `transform_sector`: logical to native sectors,
`sector >> (log_sector_size - GRUB_DISK_SECTOR_BITS)`. -/
def transform_sector (d : Disk) (sector : Nat) : Nat :=
  sector >>> (d.log_sector_size - 9)

/-- Events observable at the driver boundary and at the cache-invalidation
points of the write path, in issue order: `rd s n` / `wr s n` are driver
reads/writes of `n` native sectors starting at native sector `s`; `inval`
records a `grub_disk_cache_invalidate` call of the write path with its raw
(not yet cluster-aligned) logical sector argument. -/
inductive Ev where
  | rd (sector count : Nat)
  | wr (sector count : Nat)
  | inval (dev_id disk_id sector : Nat)
  deriving DecidableEq

/-- Driver model: whether a given driver `read` / `write` call succeeds.
Driver data always comes from / goes to the device contents carried in the
state. -/
structure DevModel where
  rOk : Nat → Nat → Bool
  wOk : Nat → Nat → Bool

/-- Mutable state threaded through the engines: the cache table, the explicit
`grub_errno`, the oracle of outcomes of the successive `grub_malloc` calls
(exhaustion of the list means success), the device byte contents, and the
event trace. -/
structure St where
  cache : Cache
  errno : GErr
  allocs : List Bool
  content : Nat → Nat
  trace : List Ev

/-- Outcome of one `grub_malloc` call: pop the next oracle entry. -/
def mallocOk (st : St) : Bool × St :=
  match st.allocs with
  | [] => (true, st)
  | b :: bs => (b, { st with allocs := bs })

/-- A driver `read` call: recorded in the trace; on success it returns the
current device bytes starting at native sector `s` (byte address
`s <<< log_sector_size`); on failure the driver sets `grub_errno`. -/
def devRead (dev : DevModel) (d : Disk) (st : St) (s n : Nat) :
    Option (Nat → Nat) × St :=
  let st := { st with trace := st.trace ++ [Ev.rd s n] }
  if dev.rOk s n then
    (Option.some (fun j => st.content (s * 2^d.log_sector_size + j)), st)
  else (Option.none, { st with errno := GErr.ioErr })

/-- A driver `write` call: recorded in the trace; on success the device bytes
at `[s <<< L, (s+n) <<< L)` become the first `n <<< L` bytes of `buf`; on
failure the driver sets `grub_errno`. -/
def devWrite (dev : DevModel) (d : Disk) (st : St) (s n : Nat) (buf : Nat → Nat) :
    Bool × St :=
  let st := { st with trace := st.trace ++ [Ev.wr s n] }
  let content2 : Nat → Nat := fun a =>
    if s * 2^d.log_sector_size ≤ a ∧ a < (s + n) * 2^d.log_sector_size then
      buf (a - s * 2^d.log_sector_size)
    else st.content a
  if dev.wOk s n then
    (true, { st with content := content2 })
  else (false, { st with errno := GErr.ioErr })

/-- Overwrite `n` bytes of `buf` starting at `pos` with `src 0, src 1, ...`
(a `grub_memcpy (buf + pos, src, n)`). -/
def splice (buf : Nat → Nat) (pos n : Nat) (src : Nat → Nat) : Nat → Nat :=
  fun i => if pos ≤ i ∧ i < pos + n then src (i - pos) else buf i

/-- Whether `total_sectors` is unknown or the cluster starting at `sector`
lies strictly inside the disk: the condition of `grub_disk_read_small` before
the full-cluster read, `total_sectors == GRUB_DISK_SIZE_UNKNOWN || sector +
GRUB_DISK_CACHE_SIZE < (total_sectors << (log_sector_size - 9))`.  Note the
strict `<`. -/
def cluster_fits (d : Disk) (sector : Nat) : Bool :=
  match d.total_sectors with
  | Option.none => true
  | Option.some t =>
      if sector + 64 < t * 2^(d.log_sector_size - 9) then true else false

/-- The aligned native-sector start of the minimal fallback read of
`grub_disk_read_small`: after re-normalising (`sector += offset >> 9`), the
sector aligned down to a native-sector boundary. -/
def fallback_aligned (d : Disk) (sector offset : Nat) : Nat :=
  let sector2 := sector + (offset >>> 9)
  sector2 - sector2 % 2^(d.log_sector_size - 9)

/-- The byte offset of the requested slice within the fallback window:
`offset &= 511` plus the skipped sectors folded back in
(`offset += (sector - aligned_sector) << GRUB_DISK_SECTOR_BITS`). -/
def fallback_offset3 (d : Disk) (sector offset : Nat) : Nat :=
  let sector2 := sector + (offset >>> 9)
  offset % 512 + (sector2 - fallback_aligned d sector offset) * 512

/-- The native sector count of the fallback window:
`num = (size + offset + (1 << log_sector_size) - 1) >> log_sector_size`. -/
def fallback_num (d : Disk) (sector offset size : Nat) : Nat :=
  (size + fallback_offset3 d sector offset + 2^d.log_sector_size - 1)
    >>> d.log_sector_size

/-- The fallback tail of `grub_disk_read_small` ("Uggh... Failed. Instead,
just read necessary data."): re-normalise `(sector, offset)`, align down to a
native sector, read only the covering native sectors (no caching), and copy
the requested slice.  A driver error here returns `grub_errno`.  This block
is entered with `grub_errno` freshly reset by the caller. -/
def read_small_fallback (dev : DevModel) (d : Disk) (st : St)
    (sector offset size : Nat) : St × Except GErr (Nat → Nat) :=
  let aligned := fallback_aligned d sector offset
  let offset3 := fallback_offset3 d sector offset
  let num := fallback_num d sector offset size
  let m := mallocOk st
  if m.1 = false then
    ({ m.2 with errno := GErr.outOfMemory }, Except.error GErr.outOfMemory)
  else
    let r := devRead dev d m.2 (transform_sector d aligned) num
    match r.1 with
    | Option.none => (r.2, Except.error r.2.errno)
    | Option.some tmp_buf => (r.2, Except.ok (fun i => tmp_buf (offset3 + i)))

/-- `grub_disk_read_small`: fetch the cluster from the cache (copy + unlock
on a hit); on a miss allocate a temporary cluster buffer and, when the
cluster fits (`cluster_fits`), attempt a full-cluster driver read, storing
the cluster into the cache on success (the store result is discarded, but a
failing store leaves `grub_errno` set); otherwise, or if that read failed,
reset `grub_errno` and take the minimal-read fallback.  The returned
`Except` is the function result (`GRUB_ERR_NONE` or the returned error); the
bytes delivered to the caller buffer are the `Except.ok` payload. -/
def grub_disk_read_small (dev : DevModel) (d : Disk) (st : St)
    (sector offset size : Nat) : St × Except GErr (Nat → Nat) :=
  let f := grub_disk_cache_fetch d.dev_id d.id sector st.cache
  let st0 := { st with cache := f.2 }
  match f.1 with
  | Option.some data =>
      let st1 := { st0 with cache := grub_disk_cache_unlock d.dev_id d.id sector st0.cache }
      (st1, Except.ok (fun i => data (offset + i)))
  | Option.none =>
      let m := mallocOk st0
      if m.1 = false then
        ({ m.2 with errno := GErr.outOfMemory }, Except.error GErr.outOfMemory)
      else
        if cluster_fits d sector then
          let r := devRead dev d m.2 (transform_sector d sector) (2^(15 - d.log_sector_size))
          match r.1 with
          | Option.some tmp_buf =>
              let m2 := mallocOk r.2
              let sres :=
                grub_disk_cache_store d.dev_id d.id sector tmp_buf m2.1 m2.2.cache
              let e2 := if sres.1 = GErr.noErr then m2.2.errno else sres.1
              let st1 := { m2.2 with cache := sres.2, errno := e2 }
              (st1, Except.ok (fun i => tmp_buf (offset + i)))
          | Option.none =>
              let st1 := { r.2 with errno := GErr.noErr }
              read_small_fallback dev d st1 sector offset size
        else
          let st1 := { m.2 with errno := GErr.noErr }
          read_small_fallback dev d st1 sector offset size

/-- Cursor of the read engine between phases: state, current (adjusted)
logical sector, remaining byte size, bytes already delivered (`pos` is the
distance the C code has advanced the `buf` pointer), and the caller buffer
contents so far. -/
structure RdSt where
  st : St
  sector : Nat
  size : Nat
  pos : Nat
  buf : Nat → Nat

/-- Head phase of `grub_disk_read` ("read until first cache boundary"): when
the offset is nonzero or the sector is not cluster-aligned, one small read of
up to the cluster boundary, then advance the cursor. -/
def read_head (dev : DevModel) (d : Disk) (st : St) (sector offset size : Nat)
    (buf : Nat → Nat) : Except (St × GErr) RdSt :=
  if offset ≠ 0 ∨ sector % 64 ≠ 0 then
    let start_sector := cluster_align sector
    let pos := (sector - start_sector) * 512
    let len := min (32768 - pos - offset) size
    let r := grub_disk_read_small dev d st start_sector (offset + pos) len
    match r.2 with
    | Except.error e => Except.error (r.1, e)
    | Except.ok chunk =>
        let buf1 := splice buf 0 len chunk
        let offset1 := offset + len
        Except.ok
          { st := r.1, sector := sector + (offset1 >>> 9), size := size - len,
            pos := len, buf := buf1 }
  else Except.ok { st := st, sector := sector, size := size, pos := 0, buf := buf }

/-- The agglomeration scan of the body phase: probe the cache cluster by
cluster (at most `k` more probes) until a hit; returns the hit buffer (if
any), the cache as mutated by the probes (a probe can set a lock bit, see
`grub_disk_cache_fetch`) and the number of leading uncached clusters. -/
def agg_scan (dev_id disk_id base : Nat) : Nat → Nat → Cache →
    Option (Nat → Nat) × Cache × Nat
  | 0, agg, c => (Option.none, c, agg)
  | Nat.succ k, agg, c =>
      let f := grub_disk_cache_fetch dev_id disk_id (base + agg * 64) c
      match f.1 with
      | Option.some data => (Option.some data, f.2, agg)
      | Option.none => agg_scan dev_id disk_id base k (agg + 1) f.2

/-- The cache-population loop after an agglomerated body read: store each of
the `k` clusters read into `bigbuf` (which starts at logical sector
`sector`), consuming one malloc-oracle entry per store and leaving
`grub_errno` set when a store fails (the C code discards the store result). -/
def store_loop (d : Disk) (sector : Nat) (bigbuf : Nat → Nat) :
    Nat → Nat → St → St
  | _, 0, st => st
  | i, Nat.succ k, st =>
      let m := mallocOk st
      let sres :=
        grub_disk_cache_store d.dev_id d.id (sector + i * 64)
          (fun j => bigbuf (i * 32768 + j)) m.1 m.2.cache
      let e2 := if sres.1 = GErr.noErr then m.2.errno else sres.1
      let st2 := { m.2 with cache := sres.2, errno := e2 }
      store_loop d sector bigbuf (i + 1) k st2

/-- Body phase of `grub_disk_read` (the `while (size >= CBS)` loop): scan for
leading uncached clusters; copy a terminating cache hit into place and unlock
it; if there were uncached clusters, read them with a single driver read,
populate the cache from the just-filled buffer, and advance; then advance
past the hit cluster.  The driver-read error exits the whole read.  `fuel`
bounds the iteration count (the wrapper passes more fuel than the loop can
consume, since each iteration removes at least one cluster). -/
def read_body (dev : DevModel) (d : Disk) : Nat → RdSt →
    Except (St × GErr × (Nat → Nat)) RdSt
  | 0, r => Except.ok r
  | Nat.succ fuel, r =>
      if r.size < 32768 then Except.ok r
      else
        let limit := r.size >>> 15
        let scan := agg_scan d.dev_id d.id r.sector limit 0 r.st.cache
        let dataOpt := scan.1
        let agg := scan.2.2
        let st1 := { r.st with cache := scan.2.1 }
        let stepData : St × (Nat → Nat) :=
          match dataOpt with
          | Option.some data =>
              let c2 := grub_disk_cache_unlock d.dev_id d.id (r.sector + agg * 64) st1.cache
              ({ st1 with cache := c2 },
               splice r.buf (r.pos + agg * 32768) 32768 data)
          | Option.none => (st1, r.buf)
        let st2 := stepData.1
        let buf2 := stepData.2
        let dAdv : Nat := match dataOpt with | Option.some _ => 1 | Option.none => 0
        if agg ≠ 0 then
          let rr := devRead dev d st2 (transform_sector d r.sector)
              ((agg * 32768) >>> d.log_sector_size)
          match rr.1 with
          | Option.none => Except.error (rr.2, GErr.ioErr, buf2)
          | Option.some bigbuf =>
              let buf3 := splice buf2 r.pos (agg * 32768) bigbuf
              let st4 := store_loop d r.sector bigbuf 0 agg rr.2
              read_body dev d fuel
                { st := st4, sector := r.sector + agg * 64 + dAdv * 64,
                  size := r.size - agg * 32768 - dAdv * 32768,
                  pos := r.pos + agg * 32768 + dAdv * 32768, buf := buf3 }
        else
          read_body dev d fuel
            { st := st2, sector := r.sector + dAdv * 64,
              size := r.size - dAdv * 32768,
              pos := r.pos + dAdv * 32768, buf := buf2 }

/-- The read-hook loop at the end of `grub_disk_read`, with an explicit fuel
to make the recursion structural: one call per logical sector, `(s, o, cl)`
with `cl = min (512 - o) l`, then `s + 1`, `o = 0`.  When `o = 512` the C
loop would make no progress (for `o < 512`, as guaranteed by
`grub_disk_adjust_range`, this cannot happen); the `cl = 0` guard only makes
the model total. -/
def hookCallsAux : Nat → Nat → Nat → Nat → List (Nat × Nat × Nat)
  | 0, _, _, _ => []
  | Nat.succ fuel, s, o, l =>
      if l = 0 then []
      else
        let cl := min (512 - o) l
        if cl = 0 then []
        else (s, o, cl) :: hookCallsAux fuel (s + 1) 0 (l - cl)

/-- The read-hook loop: `l` is always enough fuel, since every iteration
consumes at least one byte. -/
def hookCalls (s o l : Nat) : List (Nat × Nat × Nat) := hookCallsAux l s o l

/-- Result of `grub_disk_read`: final state, the value the function returns
(the final path returns `grub_errno`, see line 613), the caller buffer, and
the read-hook invocations (empty when no hook is installed or when the data
path returned early). -/
structure ReadRes where
  st : St
  ret : GErr
  buf : Nat → Nat
  hooks : List (Nat × Nat × Nat)

/-- `grub_disk_read`: adjust the range (an error there is returned as
`grub_errno`), run head, body and tail phases, then fire the read hook over
the saved `(real_sector, real_offset, real_size)` and return `grub_errno` —
note that a `grub_errno` left set by a swallowed cache-store failure is
thereby returned even though all data was delivered. -/
def grub_disk_read (dev : DevModel) (d : Disk) (st : St)
    (sector offset size : Nat) (buf : Nat → Nat) : ReadRes :=
  match grub_disk_adjust_range d sector offset size with
  | Except.error e =>
      { st := { st with errno := e }, ret := e, buf := buf, hooks := [] }
  | Except.ok (sector1, offset1) =>
      match read_head dev d st sector1 offset1 size buf with
      | Except.error (st1, e) => { st := st1, ret := e, buf := buf, hooks := [] }
      | Except.ok h =>
          match read_body dev d (h.size + 1) h with
          | Except.error (st2, e, buf2) =>
              { st := st2, ret := e, buf := buf2, hooks := [] }
          | Except.ok b =>
              if b.size ≠ 0 then
                let t := grub_disk_read_small dev d b.st b.sector 0 b.size
                match t.2 with
                | Except.error e =>
                    { st := t.1, ret := e, buf := b.buf, hooks := [] }
                | Except.ok chunk =>
                    let buf3 := splice b.buf b.pos b.size chunk
                    { st := t.1, ret := t.1.errno, buf := buf3,
                      hooks := if d.read_hook then hookCalls sector1 offset1 size else [] }
              else
                { st := b.st, ret := b.st.errno, buf := b.buf,
                  hooks := if d.read_hook then hookCalls sector1 offset1 size else [] }

/-- Cursor of the write engine: state, current (native-aligned, adjusted)
logical sector, `real_offset` (byte offset into the native sector), remaining
size and bytes consumed from the caller buffer. -/
structure WrSt where
  st : St
  sector : Nat
  real_offset : Nat
  size : Nat
  pos : Nat

/-- Outcome of one iteration of the write loop: continue with an advanced
cursor, or jump to the `finish` label with the final state. -/
inductive WStep where
  | cont (w : WrSt)
  | finish (st : St)

/-- Record a `grub_disk_cache_invalidate` call of the write path: the cache
effect plus its trace event. -/
def cache_invalidate_st (d : Disk) (st : St) (sector : Nat) : St :=
  { st with cache := grub_disk_cache_invalidate d.dev_id d.id sector st.cache,
            trace := st.trace ++ [Ev.inval d.dev_id d.id sector] }

/-- The read-modify-write branch of `grub_disk_write`: read one native sector
through the disk layer with the partition chain temporarily detached (the
address is already absolute; the chain is restored on both paths), overwrite
`[real_offset, real_offset + len)` with caller bytes, invalidate the covering
cache cluster, and only then issue the one-native-sector driver write.  The
inner read result is compared against `GRUB_ERR_NONE`; any other value jumps
to `finish`. -/
def write_rmw_step (dev : DevModel) (d : Disk) (buf : Nat → Nat) (w : WrSt) : WStep :=
  let inner := grub_disk_read dev { d with partition := [] } w.st w.sector 0
      (2^d.log_sector_size) (fun _ => 0)
  if inner.ret ≠ GErr.noErr then WStep.finish inner.st
  else
    let len := min (2^d.log_sector_size - w.real_offset) w.size
    let tmp2 := splice inner.buf w.real_offset len (fun i => buf (w.pos + i))
    let st1 := cache_invalidate_st d inner.st w.sector
    let dw := devWrite dev d st1 (transform_sector d w.sector) 1 tmp2
    if dw.1 = false then WStep.finish dw.2
    else
      WStep.cont
        { st := dw.2, sector := w.sector + 2^(d.log_sector_size - 9),
          real_offset := 0, size := w.size - len, pos := w.pos + len }

/-- The invalidation loop after a successful bulk write (`while (n--)`):
invalidate the cluster of each written native sector, advancing by one native
sector each time. -/
def inval_loop (d : Disk) : Nat → St → Nat → St × Nat
  | 0, st, sector => (st, sector)
  | Nat.succ n, st, sector =>
      inval_loop d n (cache_invalidate_st d st sector) (sector + 2^(d.log_sector_size - 9))

/-- The aligned-bulk branch of `grub_disk_write`: issue one driver write of
`n = size >> L` native sectors first, and only after it succeeded invalidate
the affected cache clusters.  A failing driver write jumps to `finish`
without any invalidation. -/
def write_bulk_step (dev : DevModel) (d : Disk) (buf : Nat → Nat) (w : WrSt) : WStep :=
  let len := w.size - w.size % 2^d.log_sector_size
  let n := w.size >>> d.log_sector_size
  let dw := devWrite dev d w.st (transform_sector d w.sector) n (fun i => buf (w.pos + i))
  if dw.1 = false then WStep.finish dw.2
  else
    let r := inval_loop d n dw.2 w.sector
    WStep.cont
      { st := r.1, sector := r.2, real_offset := w.real_offset,
        size := w.size - len, pos := w.pos + len }

/-- The `while (size)` loop of `grub_disk_write`: read-modify-write when the
write is not native-sector aligned (nonzero `real_offset` or a short tail),
aligned bulk otherwise.  `fuel` bounds the iteration count (each iteration
consumes at least one byte, so `size + 1` fuel always suffices). -/
def write_loop (dev : DevModel) (d : Disk) (buf : Nat → Nat) : Nat → WrSt → St
  | 0, w => w.st
  | Nat.succ fuel, w =>
      if w.size = 0 then w.st
      else if w.real_offset ≠ 0 ∨ w.size < 2^d.log_sector_size then
        match write_rmw_step dev d buf w with
        | WStep.finish st => st
        | WStep.cont w1 => write_loop dev d buf fuel w1
      else
        match write_bulk_step dev d buf w with
        | WStep.finish st => st
        | WStep.cont w1 => write_loop dev d buf fuel w1

/-- Result of `grub_disk_write`: final state and returned value (`finish`
returns `grub_errno`; an `adjust_range` failure returns `(grub_err_t) -1`). -/
structure WriteRes where
  st : St
  ret : GErr

/-- `grub_disk_write`: adjust the range, align the start sector down to a
native-sector boundary folding the displacement into `real_offset`, then run
the write loop. -/
def grub_disk_write (dev : DevModel) (d : Disk) (st : St)
    (sector offset size : Nat) (buf : Nat → Nat) : WriteRes :=
  match grub_disk_adjust_range d sector offset size with
  | Except.error e => { st := { st with errno := e }, ret := GErr.minusOne }
  | Except.ok (s1, o1) =>
      let aligned := s1 - s1 % 2^(d.log_sector_size - 9)
      let ro := o1 + (s1 - aligned) * 512
      let stF := write_loop dev d buf (size + 1)
        { st := st, sector := aligned, real_offset := ro, size := size, pos := 0 }
      { st := stF, ret := stF.errno }

/-- The cache coherence invariant used for C1: every occupied slot belonging
to disk `(dd, di)` sits at its hash index, is keyed to a cluster-aligned
sector, and holds exactly the current device bytes of that cluster. -/
def CacheInv (content : Nat → Nat) (dd di : Nat) (c : Cache) : Prop :=
  ∀ i, (c i).dev_id = dd → (c i).disk_id = di →
    ∀ data, (c i).data = Option.some data →
      grub_disk_cache_get_index dd di (c i).sector = i ∧
      (c i).sector % 64 = 0 ∧
      ∀ j < 32768, data j = content ((c i).sector * 512 + j)

/-- Weakened coherence during the bulk-write invalidation loop: slots keyed
to a cluster in the `bad` set are exempted. -/
def CacheInvX (content : Nat → Nat) (dd di : Nat) (c : Cache) (bad : Nat → Prop) : Prop :=
  ∀ i, (c i).dev_id = dd → (c i).disk_id = di →
    ∀ data, (c i).data = Option.some data →
      grub_disk_cache_get_index dd di (c i).sector = i ∧
      (c i).sector % 64 = 0 ∧
      (bad (c i).sector ∨ ∀ j < 32768, data j = content ((c i).sector * 512 + j))

/-- Whether an event is a driver read (the only kind of event the read path
emits). -/
def Ev.isRead : Ev → Prop
  | Ev.rd _ _ => True
  | _ => False

/-- The invalidation events emitted by `inval_loop` for `n` native sectors
starting at logical sector `sector`. -/
def invEvents (d : Disk) (sector : Nat) : Nat → List Ev
  | 0 => []
  | Nat.succ n =>
      Ev.inval d.dev_id d.id sector ::
        invEvents d (sector + 2^(d.log_sector_size - 9)) n

/-- What one visit to the read path preserves, relative to disk `(dd, di)`:
the device contents are untouched, the trace is extended by driver reads
only, and cache coherence carries through. -/
def ReadPres (dd di : Nat) (st st2 : St) : Prop :=
  st2.content = st.content ∧
  (∃ evs, st2.trace = st.trace ++ evs ∧ ∀ e ∈ evs, Ev.isRead e) ∧
  (CacheInv st.content dd di st.cache → CacheInv st.content dd di st2.cache)

/-- The state carried by a write-loop step outcome. -/
def WStep.st : WStep → St
  | WStep.cont w => w.st
  | WStep.finish s => s

/-! Concrete fixtures for the counterexamples and witnesses. -/

/-- A driver whose reads and writes always succeed. -/
def devOkAll : DevModel := { rOk := fun _ _ => true, wOk := fun _ _ => true }

/-- The all-empty cache (the initial state of the static table). -/
def cacheEmpty : Cache := fun _ => emptyEntry

/-- An unpartitioned 512-byte-sector disk of unknown size. -/
def diskA : Disk :=
  { dev_id := 1, id := 1, log_sector_size := 9, total_sectors := Option.none,
    partition := [], read_hook := false }

/-- `diskA` with a read hook installed. -/
def diskHook : Disk := { diskA with read_hook := true }

/-- `diskA` with exactly 64 native (= logical) sectors, so the cluster at
sector 0 fits exactly. -/
def diskFit : Disk := { diskA with total_sectors := Option.some 64 }

/-- A 1000-sector disk with one partition `[100, 150)` (spec boundary
scenario 2). -/
def diskPart : Disk :=
  { dev_id := 1, id := 1, log_sector_size := 9, total_sectors := Option.some 1000,
    partition := [{ start := 100, len := 50 }], read_hook := false }

/-- Base state: empty cache, clear errno, all allocations succeed, device
byte `a` holds `(a + 3) % 256`. -/
def stA : St :=
  { cache := cacheEmpty, errno := GErr.noErr, allocs := [],
    content := fun a => (a + 3) % 256, trace := [] }

/-- State whose second `grub_malloc` (the cache-store allocation of the
small-read path) fails. -/
def stOOM : St := { stA with allocs := [true, false] }

/-- The C3 read: a 512-byte read on `diskA` during which the cache store runs
out of memory. -/
def readC3 : ReadRes := grub_disk_read devOkAll diskA stOOM 0 0 512 (fun _ => 0)

/-- A locked, occupied cache slot keyed `(1, 1, 0)`. -/
def c6entry : CacheEntry :=
  { dev_id := 1, disk_id := 1, sector := 0, data := Option.some (fun _ => 0), lock := true }

/-- A cache holding `c6entry` at its hash index
(`grub_disk_cache_get_index 1 1 0 = 360`). -/
def c6cache : Cache := Function.update cacheEmpty 360 c6entry

/-! Theorems. -/

/-- C8, counterexample: at `sector = 2^38` the cluster number `sector >> 6 =
2^32` is truncated to `0` by the `(unsigned)` cast, so the implementation
maps `(0, 0, 2^38)` to slot 0 while the claimed exact-arithmetic formula maps
it to slot `2^32 % 1021 = 108`; the claim that the arithmetic is exact (no
truncation of the shifted cluster number) is therefore false. -/
theorem claim8_counterexample :
    grub_disk_cache_get_index 0 0 (2^38) = 0 ∧
    claim_cache_index 0 0 (2^38) = 108 ∧
    grub_disk_cache_get_index 0 0 (2^38) ≠ claim_cache_index 0 0 (2^38) :=
  ⟨by decide, by decide, by decide⟩

/-- C8, amended: the slot index equals
`(class_id * 524287 + disk_id * 2606459 + ((sector >> 6) mod 2^32)) mod 2^64 mod 1021`:
the mixing formula of the claim, except that the shifted cluster number is
truncated to 32 bits by the `(unsigned)` cast and the sum is 64-bit
(`unsigned long`) arithmetic. -/
theorem claim8_amended (dev_id disk_id sector : Nat) :
    grub_disk_cache_get_index dev_id disk_id sector =
      (dev_id * 524287 + disk_id * 2606459 + (sector >>> 6) % 2^32) % 2^64 % 1021 := by
  unfold grub_disk_cache_get_index
  generalize (sector >>> 6) = s6
  have h64 : (2:Nat)^64 = 18446744073709551616 := by norm_num
  have h32 : (2:Nat)^32 = 4294967296 := by norm_num
  rw [h64, h32]
  omega

/-- C6, counterexample: a locked, occupied slot whose key matches is freed by
`grub_disk_cache_invalidate` (its buffer is released and its lock cleared),
contradicting the claim that a matching slot with the lock bit set is left
untouched. -/
theorem claim6_counterexample :
    (c6cache 360).lock = true ∧ (c6cache 360).data.isSome = true ∧
    (c6cache 360).dev_id = 1 ∧ (c6cache 360).disk_id = 1 ∧ (c6cache 360).sector = 0 ∧
    grub_disk_cache_get_index 1 1 0 = 360 ∧
    ((grub_disk_cache_invalidate 1 1 0 c6cache) 360).data.isSome = false :=
  ⟨by decide, by decide, by decide, by decide, by decide, by decide, by decide⟩

/-- C6, amended: `grub_disk_cache_invalidate` frees the hashed slot if and
only if the slot matches `(class_id, disk_id, sector)` with the sector
rounded down to cluster alignment and is occupied — regardless of the lock
bit, which afterwards is clear; a non-matching or empty slot is left
untouched. -/
theorem claim6_amended (dev_id disk_id sector : Nat) (c : Cache) (sa index : Nat)
    (e : CacheEntry) (hsa : sa = cluster_align sector)
    (hidx : index = grub_disk_cache_get_index dev_id disk_id sa) (he : e = c index) :
    ((e.dev_id = dev_id ∧ e.disk_id = disk_id ∧ e.sector = sa ∧ e.data.isSome = true) →
      grub_disk_cache_invalidate dev_id disk_id sector c =
        Function.update c index { e with data := Option.none, lock := false }) ∧
    (¬(e.dev_id = dev_id ∧ e.disk_id = disk_id ∧ e.sector = sa ∧ e.data.isSome = true) →
      grub_disk_cache_invalidate dev_id disk_id sector c = c) := by
  subst hsa
  subst hidx
  subst he
  constructor
  · intro h
    simp only [grub_disk_cache_invalidate]
    rw [if_pos h]
  · intro h
    simp only [grub_disk_cache_invalidate]
    rw [if_neg h]

/-- C6, witness: invalidating `(1, 1, 5)` rounds the sector down to cluster 0
and frees the matching locked slot 360 of `c6cache`. -/
theorem claim6_witness :
    grub_disk_cache_invalidate 1 1 5 c6cache =
      Function.update c6cache 360 { c6entry with data := Option.none, lock := false } := by
  have he : c6entry = c6cache 360 := by
    simp [c6cache]
  exact (claim6_amended 1 1 5 c6cache 0 360 c6entry (by decide) (by decide) he).1
    ⟨by decide, by decide, by decide, by decide⟩

/-- C10: fetching a key whose three fields match a slot with an empty buffer
returns a miss (NULL) while still setting the slot's lock bit; the slot keeps
its key and stays empty, `grub_disk_cache_invalidate_all` leaves such a slot
completely unchanged (so it remains locked — and the small-read and body
paths of `grub_disk_read` call `grub_disk_cache_unlock` only under
`if (data)`, i.e. after a hit), and any subsequent
`grub_disk_cache_store` to the same key (hence the same slot) leaves the lock
bit clear, whether or not its allocation succeeds. -/
theorem claim10 (dev_id disk_id sector index : Nat) (c : Cache)
    (hidx : index = grub_disk_cache_get_index dev_id disk_id sector)
    (hdev : (c index).dev_id = dev_id) (hdisk : (c index).disk_id = disk_id)
    (hsec : (c index).sector = sector)
    (hdata : (c index).data = Option.none) :
    (grub_disk_cache_fetch dev_id disk_id sector c).1 = Option.none ∧
    ((grub_disk_cache_fetch dev_id disk_id sector c).2 index).lock = true ∧
    ((grub_disk_cache_fetch dev_id disk_id sector c).2 index).data = Option.none ∧
    grub_disk_cache_invalidate_all ((grub_disk_cache_fetch dev_id disk_id sector c).2) index =
      (grub_disk_cache_fetch dev_id disk_id sector c).2 index ∧
    (∀ bytes ok,
      ((grub_disk_cache_store dev_id disk_id sector bytes ok
          ((grub_disk_cache_fetch dev_id disk_id sector c).2)).2 index).lock = false) := by
  subst hidx
  have hfetch : grub_disk_cache_fetch dev_id disk_id sector c =
      ((c (grub_disk_cache_get_index dev_id disk_id sector)).data,
        Function.update c (grub_disk_cache_get_index dev_id disk_id sector)
          { c (grub_disk_cache_get_index dev_id disk_id sector) with lock := true }) := by
    simp only [grub_disk_cache_fetch]
    rw [if_pos ⟨hdev, hdisk, hsec⟩]
  rw [hfetch]
  refine ⟨hdata, ?_, ?_, ?_, ?_⟩
  · simp [Function.update_same]
  · simp [Function.update_same, hdata]
  · simp only [grub_disk_cache_invalidate_all]
    rw [if_neg]
    simp [Function.update_same, hdata]
  · intro bytes ok
    simp only [grub_disk_cache_store]
    cases ok
    · rw [if_neg (by simp)]
      simp [Function.update_same]
    · rw [if_pos rfl]
      simp [Function.update_same]

/-- C10, witness: on the all-zero initial cache the key `(0, 0, 0)` matches
the empty slot 0, so the first fetch of it locks the slot while missing. -/
theorem claim10_witness :
    (grub_disk_cache_fetch 0 0 0 cacheEmpty).1 = Option.none ∧
    ((grub_disk_cache_fetch 0 0 0 cacheEmpty).2 0).lock = true ∧
    ((grub_disk_cache_store 0 0 0 (fun _ => 5) true
        ((grub_disk_cache_fetch 0 0 0 cacheEmpty).2)).2 0).lock = false := by
  have h := claim10 0 0 0 0 cacheEmpty (by decide) (by decide) (by decide) (by decide)
    (by simp [cacheEmpty, emptyEntry])
  exact ⟨h.1, h.2.1, h.2.2.2.2 (fun _ => 5) true⟩

/-- One declining driver in front of the list only shifts the index of the
winning driver. -/
theorem grub_disk_open_scan_cons_unknown (name : String) (l : List GErr) :
    grub_disk_open_scan name (GErr.unknownDevice :: l) =
      match grub_disk_open_scan name l with
      | Except.ok i => Except.ok (i + 1)
      | Except.error err => Except.error err := rfl

/-- A succeeding driver in front of the list wins immediately. -/
theorem grub_disk_open_scan_cons_noErr (name : String) (l : List GErr) :
    grub_disk_open_scan name (GErr.noErr :: l) = Except.ok 0 := rfl

/-- A driver failing with anything but `GRUB_ERR_UNKNOWN_DEVICE` aborts the
walk with its error. -/
theorem grub_disk_open_scan_cons_other (name : String) (l : List GErr) (e : GErr)
    (he : e ≠ GErr.noErr) (hu : e ≠ GErr.unknownDevice) :
    grub_disk_open_scan name (e :: l) = Except.error (e, Option.none) := by
  rw [grub_disk_open_scan]
  rw [if_neg he, if_neg hu]

/-- Skipping a prefix of drivers that all reported `GRUB_ERR_UNKNOWN_DEVICE`
only shifts the index of the winning driver. -/
theorem grub_disk_open_scan_append (name : String) (pre l : List GErr)
    (hpre : ∀ x ∈ pre, x = GErr.unknownDevice) :
    grub_disk_open_scan name (pre ++ l) =
      match grub_disk_open_scan name l with
      | Except.ok i => Except.ok (i + pre.length)
      | Except.error err => Except.error err := by
  induction pre with
  | nil =>
      simp only [List.nil_append, List.length_nil]
      cases h : grub_disk_open_scan name l <;> simp [h]
  | cons x pre ih =>
      have hx : x = GErr.unknownDevice := hpre x (by simp)
      subst hx
      have hpre2 : ∀ y ∈ pre, y = GErr.unknownDevice := fun y hy => hpre y (by simp [hy])
      rw [List.cons_append, grub_disk_open_scan_cons_unknown, ih hpre2]
      cases h : grub_disk_open_scan name l with
      | error err => simp [h]
      | ok i =>
          simp [h]
          omega

/-- C9: in the driver walk of `grub_disk_open`, a driver failing with
`GRUB_ERR_UNKNOWN_DEVICE` is suppressed and the next driver is tried (so the
first succeeding driver past any such prefix wins, at its own index); any
other driver error aborts the open with that error; and if every registered
driver declines, the open fails with `GRUB_ERR_UNKNOWN_DEVICE` and the
disk-not-found message naming the disk. -/
theorem claim9 :
    (∀ (name : String) (pre post : List GErr), (∀ x ∈ pre, x = GErr.unknownDevice) →
       grub_disk_open_scan name (pre ++ GErr.noErr :: post) = Except.ok pre.length) ∧
    (∀ (name : String) (pre post : List GErr) (e : GErr),
       (∀ x ∈ pre, x = GErr.unknownDevice) → e ≠ GErr.noErr → e ≠ GErr.unknownDevice →
       grub_disk_open_scan name (pre ++ e :: post) = Except.error (e, Option.none)) ∧
    (∀ (name : String) (l : List GErr), (∀ x ∈ l, x = GErr.unknownDevice) →
       grub_disk_open_scan name l =
         Except.error (GErr.unknownDevice, Option.some ("disk " ++ name ++ " not found"))) := by
  refine ⟨?_, ?_, ?_⟩
  · intro name pre post hpre
    rw [grub_disk_open_scan_append name pre _ hpre, grub_disk_open_scan_cons_noErr]
    simp
  · intro name pre post e hpre he hu
    rw [grub_disk_open_scan_append name pre _ hpre,
      grub_disk_open_scan_cons_other name post e he hu]
  · intro name l hl
    have h := grub_disk_open_scan_append name l [] hl
    rw [List.append_nil] at h
    rw [h]
    rfl

/-- C9, witness: one declining driver then a success yields index 1; a
mid-walk hard error aborts with it; two declining drivers yield the
not-found error with the interpolated message. -/
theorem claim9_witness :
    grub_disk_open_scan "hd0" [GErr.unknownDevice, GErr.noErr] = Except.ok 1 ∧
    grub_disk_open_scan "hd0" [GErr.unknownDevice, GErr.outOfMemory, GErr.noErr] =
      Except.error (GErr.outOfMemory, Option.none) ∧
    grub_disk_open_scan "hd0" [GErr.unknownDevice, GErr.unknownDevice] =
      Except.error (GErr.unknownDevice, Option.some "disk hd0 not found") := by
  refine ⟨?_, ?_, ?_⟩
  · exact claim9.1 "hd0" [GErr.unknownDevice] [] (by intro x hx; simpa using hx)
  · exact claim9.2.1 "hd0" [GErr.unknownDevice] [GErr.noErr] GErr.outOfMemory
      (by intro x hx; simpa using hx) (by decide) (by decide)
  · exact claim9.2.2 "hd0" [GErr.unknownDevice, GErr.unknownDevice]
      (by intro x hx; simp at hx; exact hx)

/-- Lifting a valid split position over one leading character: position
`j + 1` of `c :: rest` is a separator iff position `j` of `rest` is one and,
when `j = 0`, the immediately preceding character `c` is not a backslash. -/
theorem sepAt_succ (c : Char) (rest : List Char) (j : Nat) :
    sepAt (c :: rest) (j + 1) ↔ (sepAt rest j ∧ (j = 0 → c ≠ '\\')) := by
  cases j with
  | zero =>
      simp only [sepAt, List.getD_cons_succ, List.getD_cons_zero, List.length_cons,
        Nat.add_sub_cancel]
      constructor
      · rintro ⟨h1, h2, h3⟩
        refine ⟨⟨by omega, h2, ?_⟩, fun _ => ?_⟩
        · left
          trivial
        · rcases h3 with h3 | h3
          · exact absurd h3 (by omega)
          · exact h3
      · rintro ⟨⟨h1, h2, _⟩, h4⟩
        refine ⟨by omega, h2, Or.inr ?_⟩
        exact h4 (by trivial)
  | succ k =>
      simp only [sepAt, List.getD_cons_succ, List.length_cons, Nat.add_sub_cancel]
      constructor
      · rintro ⟨h1, h2, h3⟩
        refine ⟨⟨by omega, h2, ?_⟩, fun h => absurd h (by omega)⟩
        rcases h3 with h3 | h3
        · exact absurd h3 (by omega)
        · exact Or.inr h3
      · rintro ⟨⟨h1, h2, h3⟩, _⟩
        refine ⟨by omega, h2, ?_⟩
        rcases h3 with h3 | h3
        · exact absurd h3 (by omega)
        · exact Or.inr h3

/-- Position 0 is a separator exactly when the first character is a comma. -/
theorem sepAt_zero_cons (c : Char) (rest : List Char) : sepAt (c :: rest) 0 ↔ c = ',' := by
  simp [sepAt]

/-- Scanner equation: a leading unescaped comma is the separator. -/
theorem find_part_sep_cons_comma (c2 : Char) (rest : List Char) :
    find_part_sep (',' :: c2 :: rest) = Option.some 0 := by
  simp [find_part_sep]

/-- Scanner equation: a backslash-comma pair is skipped whole. -/
theorem find_part_sep_cons_pair (rest : List Char) :
    find_part_sep ('\\' :: ',' :: rest) = (find_part_sep rest).map (fun i => i + 2) := by
  simp [find_part_sep]

/-- Scanner equation: any other character is stepped over. -/
theorem find_part_sep_cons_other (c c2 : Char) (rest : List Char)
    (hp : ¬(c = '\\' ∧ c2 = ',')) (hc : c ≠ ',') :
    find_part_sep (c :: c2 :: rest) = (find_part_sep (c2 :: rest)).map (fun i => i + 1) := by
  rw [find_part_sep, if_neg hp, if_neg hc]

/-- `find_part_sep` returns exactly the least position of a comma not
preceded by a backslash (`sepAt`), and `Option.none` when there is none. -/
theorem find_part_sep_correct (name : List Char) :
    (∀ i, find_part_sep name = Option.some i → sepAt name i ∧ ∀ j < i, ¬ sepAt name j) ∧
    (find_part_sep name = Option.none → ∀ j, ¬ sepAt name j) := by
  match name with
  | [] =>
      constructor
      · intro i hi
        simp [find_part_sep] at hi
      · intro _ j
        simp [sepAt]
  | [c] =>
      by_cases hc : c = ','
      · subst hc
        constructor
        · intro i hi
          simp only [find_part_sep, if_pos rfl] at hi
          obtain rfl : (0 : Nat) = i := Option.some.inj hi
          refine ⟨(sepAt_zero_cons _ _).mpr rfl, ?_⟩
          intro j hj
          omega
        · intro h
          simp [find_part_sep] at h
      · constructor
        · intro i hi
          simp only [find_part_sep, if_neg hc] at hi
          cases hi
        · intro _ j
          intro hs
          have hj : j = 0 := by
            have h1 := hs.1
            simp at h1
            omega
          subst hj
          exact hc ((sepAt_zero_cons _ _).mp hs)
  | c :: c2 :: rest =>
      have IH1 := find_part_sep_correct rest
      have IH2 := find_part_sep_correct (c2 :: rest)
      by_cases hp : c = '\\' ∧ c2 = ','
      · obtain ⟨hc, hc2⟩ := hp
        subst hc
        subst hc2
        constructor
        · intro i hi
          rw [find_part_sep_cons_pair] at hi
          cases hfs : find_part_sep rest with
          | none =>
              rw [hfs] at hi
              simp at hi
          | some i0 =>
              rw [hfs] at hi
              obtain rfl : i0 + 2 = i := Option.some.inj hi
              obtain ⟨hsep, hmin⟩ := IH1.1 i0 hfs
              constructor
              · rw [show i0 + 2 = (i0 + 1) + 1 from rfl, sepAt_succ, sepAt_succ]
                refine ⟨⟨hsep, fun _ => by decide⟩, fun h => absurd h (by omega)⟩
              · intro j hj
                match j with
                | 0 =>
                    intro hs
                    have := (sepAt_zero_cons _ _).mp hs
                    simp at this
                | 1 =>
                    intro hs
                    rw [sepAt_succ] at hs
                    exact (hs.2 rfl) rfl
                | (j' + 2) =>
                    intro hs
                    rw [show j' + 2 = (j' + 1) + 1 from rfl, sepAt_succ, sepAt_succ] at hs
                    exact hmin j' (by omega) hs.1.1
        · intro h
          rw [find_part_sep_cons_pair] at h
          cases hfs : find_part_sep rest with
          | none =>
              intro j
              match j with
              | 0 =>
                  intro hs
                  have := (sepAt_zero_cons _ _).mp hs
                  simp at this
              | 1 =>
                  intro hs
                  rw [sepAt_succ] at hs
                  exact (hs.2 rfl) rfl
              | (j' + 2) =>
                  intro hs
                  rw [show j' + 2 = (j' + 1) + 1 from rfl, sepAt_succ, sepAt_succ] at hs
                  exact IH1.2 hfs j' hs.1.1
          | some i0 =>
              rw [hfs] at h
              simp at h
      · by_cases hc : c = ','
        · subst hc
          constructor
          · intro i hi
            rw [find_part_sep_cons_comma] at hi
            obtain rfl : (0 : Nat) = i := Option.some.inj hi
            refine ⟨(sepAt_zero_cons _ _).mpr rfl, ?_⟩
            intro j hj
            omega
          · intro h
            rw [find_part_sep_cons_comma] at h
            cases h
        · constructor
          · intro i hi
            rw [find_part_sep_cons_other c c2 rest hp hc] at hi
            cases hfs : find_part_sep (c2 :: rest) with
            | none =>
                rw [hfs] at hi
                simp at hi
            | some i0 =>
                rw [hfs] at hi
                obtain rfl : i0 + 1 = i := Option.some.inj hi
                obtain ⟨hsep, hmin⟩ := IH2.1 i0 hfs
                constructor
                · rw [sepAt_succ]
                  refine ⟨hsep, ?_⟩
                  intro h0
                  subst h0
                  have hc2 : c2 = ',' := (sepAt_zero_cons _ _).mp hsep
                  intro hcb
                  exact hp ⟨hcb, hc2⟩
                · intro j hj
                  match j with
                  | 0 =>
                      intro hs
                      exact hc ((sepAt_zero_cons _ _).mp hs)
                  | (j' + 1) =>
                      intro hs
                      rw [sepAt_succ] at hs
                      exact hmin j' (by omega) hs.1
          · intro h
            rw [find_part_sep_cons_other c c2 rest hp hc] at h
            cases hfs : find_part_sep (c2 :: rest) with
            | none =>
                intro j
                match j with
                | 0 =>
                    intro hs
                    exact hc ((sepAt_zero_cons _ _).mp hs)
                | (j' + 1) =>
                    intro hs
                    rw [sepAt_succ] at hs
                    exact IH2.2 hfs j' hs.1
            | some i0 =>
                rw [hfs] at h
                simp at h
termination_by name.length
decreasing_by
  all_goals simp
  omega

/-- C4, counterexample: opening the C string written `my\\,disk,1` (characters
`m y \ , d i s k , 1`) splits at the unescaped comma at position 8, but the
device name handed to the drivers is the prefix copied verbatim — the
backslash escape is NOT removed — so the driver receives `m y \ , d i s k`,
not the claimed `m y , d i s k`; the partition spec is `1`. -/
theorem claim4_counterexample :
    (grub_disk_open_split ['m', 'y', '\\', ',', 'd', 'i', 's', 'k', ',', '1']).1 =
      ['m', 'y', '\\', ',', 'd', 'i', 's', 'k'] ∧
    (grub_disk_open_split ['m', 'y', '\\', ',', 'd', 'i', 's', 'k', ',', '1']).2 =
      Option.some ['1'] ∧
    ['m', 'y', '\\', ',', 'd', 'i', 's', 'k'] ≠ ['m', 'y', ',', 'd', 'i', 's', 'k'] :=
  ⟨by decide, by decide, by decide⟩

/-- C4, amended: `grub_disk_open` splits its name at the first comma that is
not preceded by a backslash (a backslash-comma pair is skipped as an escaped
comma when scanning); the device name passed to each driver is the part
before that comma copied verbatim, with the backslash escapes left intact
(there is no unescape step), and the partition spec is the remainder after
the comma.  Without an unescaped comma the whole name goes to the drivers. -/
theorem claim4_amended :
    (∀ (name : List Char) (i : Nat), find_part_sep name = Option.some i →
       sepAt name i ∧ (∀ j < i, ¬ sepAt name j) ∧
       grub_disk_open_split name = (name.take i, Option.some (name.drop (i + 1)))) ∧
    (∀ name : List Char, find_part_sep name = Option.none →
       (∀ j, ¬ sepAt name j) ∧ grub_disk_open_split name = (name, Option.none)) := by
  constructor
  · intro name i hi
    obtain ⟨h1, h2⟩ := (find_part_sep_correct name).1 i hi
    refine ⟨h1, h2, ?_⟩
    simp [grub_disk_open_split, hi]
  · intro name h
    exact ⟨(find_part_sep_correct name).2 h, by simp [grub_disk_open_split, h]⟩

/-- C4, witness: on `m y \ , d i s k , 1` the separator is position 8 (a
valid split position, unlike the escaped comma at position 3), and the split
yields the verbatim prefix and the partition spec `1`. -/
theorem claim4_witness :
    sepAt ['m', 'y', '\\', ',', 'd', 'i', 's', 'k', ',', '1'] 8 ∧
    ¬ sepAt ['m', 'y', '\\', ',', 'd', 'i', 's', 'k', ',', '1'] 3 ∧
    grub_disk_open_split ['m', 'y', '\\', ',', 'd', 'i', 's', 'k', ',', '1'] =
      (['m', 'y', '\\', ',', 'd', 'i', 's', 'k'], Option.some ['1']) := by
  have h := claim4_amended.1 ['m', 'y', '\\', ',', 'd', 'i', 's', 'k', ',', '1'] 8 (by decide)
  exact ⟨h.1, h.2.1 3 (by omega), h.2.2⟩

/-- Unfolding of the partition-start sum over a cons. -/
theorem partsStartSum_cons (p : GPart) (rest : List GPart) :
    partsStartSum (p :: rest) = p.start + partsStartSum rest := by
  simp [partsStartSum]

/-- As long as the accumulated sector plus all remaining partition starts
stays below `2^64`, the 64-bit partition walk agrees with the
exact-arithmetic walk of the claim. -/
theorem adjust_parts_eq_specWalk (need : Nat) (parts : List GPart) (s : Nat)
    (hs : s + partsStartSum parts < 2^64) :
    adjust_parts need parts s = specWalk need parts s := by
  induction parts generalizing s with
  | nil => rfl
  | cons p rest ih =>
      rw [partsStartSum_cons] at hs
      simp only [adjust_parts, specWalk]
      by_cases hc : s < p.len ∧ need ≤ p.len - s
      · rw [if_neg (by omega), if_pos hc]
        have hmod : (s + p.start) % 2^64 = s + p.start := Nat.mod_eq_of_lt (by omega)
        rw [hmod]
        exact ih (s + p.start) (by omega)
      · rw [if_pos (by omega), if_neg hc]

/-- C2: under no-overflow side conditions (the request size, the accumulated
absolute sector, and the disk size in logical sectors each fit in 64 bits),
`grub_disk_adjust_range` first normalises (`sector += offset >> 9`,
`offset &= 511`, so `offset < 512` afterwards), then fails with
`GRUB_ERR_OUT_OF_RANGE` exactly when the claimed walk does — walking the
chain innermost to outermost with `need = ⌈(offset + size) / 512⌉`, failing
when `sector ≥ len` or `len - sector < need` and adding each `start` in
turn, with the same containment check against
`total_sectors << (log_sector_size - 9)` when the size is known — and on
success returns the accumulated device-absolute sector; the last conjunct
identifies `(offset + size + 511) / 512` with the ceiling
`⌈(offset + size) / 512⌉`. -/
theorem claim2 (d : Disk) (sector offset size : Nat)
    (h1 : offset + size + 511 < 2^64)
    (h2 : sector + offset / 512 + partsStartSum d.partition < 2^64)
    (h3 : ∀ t, d.total_sectors = Option.some t →
       t * 2^(d.log_sector_size - 9) < 2^64) :
    grub_disk_adjust_range d sector offset size =
      (match adjust_range_spec d sector offset size with
       | Option.some v => Except.ok v
       | Option.none => Except.error GErr.outOfRange) ∧
    (∀ s2 o2, adjust_range_spec d sector offset size = Option.some (s2, o2) →
       o2 = offset % 512 ∧ o2 < 512 ∧
       specWalk ((offset % 512 + size + 511) / 512) d.partition (sector + offset / 512) =
         Option.some s2) ∧
    (512 * ((offset % 512 + size + 511) / 512) < offset % 512 + size + 512 ∧
     offset % 512 + size ≤ 512 * ((offset % 512 + size + 511) / 512)) := by
  have ho : offset >>> 9 = offset / 512 := by
    rw [Nat.shiftRight_eq_div_pow]
  have hs1 : (sector + offset >>> 9) % 2^64 = sector + offset / 512 := by
    rw [ho]
    exact Nat.mod_eq_of_lt (by omega)
  have homod : offset % 512 ≤ offset := Nat.mod_le offset 512
  have hneed : need64 (offset % 512) size = (offset % 512 + size + 511) / 512 := by
    unfold need64
    rw [Nat.mod_eq_of_lt (by omega), Nat.shiftRight_eq_div_pow]
  have hwalk := adjust_parts_eq_specWalk ((offset % 512 + size + 511) / 512)
    d.partition (sector + offset / 512) (by omega)
  refine ⟨?_, ?_, by omega⟩
  · simp only [grub_disk_adjust_range, adjust_range_spec]
    rw [hs1, hneed, hwalk]
    generalize hsw : specWalk ((offset % 512 + size + 511) / 512) d.partition (sector + offset / 512) = sw
    cases sw with
    | none => rfl
    | some s2 =>
        cases htt : d.total_sectors with
        | none => rfl
        | some t =>
            have htl : (t * 2^(d.log_sector_size - 9)) % 2^64 =
                t * 2^(d.log_sector_size - 9) := Nat.mod_eq_of_lt (h3 t htt)
            simp only []
            rw [htl]
            by_cases hcond : s2 < t * 2^(d.log_sector_size - 9) ∧
                (offset % 512 + size + 511) / 512 ≤ t * 2^(d.log_sector_size - 9) - s2
            · rw [if_neg (by omega), if_pos hcond]
            · rw [if_pos (by omega), if_neg hcond]
  · intro s2 o2 hspec
    simp only [adjust_range_spec] at hspec
    cases hsw : specWalk ((offset % 512 + size + 511) / 512) d.partition
        (sector + offset / 512) with
    | none =>
        rw [hsw] at hspec
        simp only [] at hspec
        cases hspec
    | some s1 =>
        rw [hsw] at hspec
        simp only [] at hspec
        cases htt : d.total_sectors with
        | none =>
            rw [htt] at hspec
            simp only [] at hspec
            have hp := Option.some.inj hspec
            obtain ⟨rfl, rfl⟩ : s1 = s2 ∧ offset % 512 = o2 :=
              ⟨congrArg Prod.fst hp, congrArg Prod.snd hp⟩
            exact ⟨rfl, Nat.mod_lt offset (by omega), rfl⟩
        | some t =>
            rw [htt] at hspec
            simp only [] at hspec
            by_cases hcond : s1 < t * 2^(d.log_sector_size - 9) ∧
                (offset % 512 + size + 511) / 512 ≤ t * 2^(d.log_sector_size - 9) - s1
            · rw [if_pos hcond] at hspec
              have hp := Option.some.inj hspec
              obtain ⟨rfl, rfl⟩ : s1 = s2 ∧ offset % 512 = o2 :=
                ⟨congrArg Prod.fst hp, congrArg Prod.snd hp⟩
              exact ⟨rfl, Nat.mod_lt offset (by omega), rfl⟩
            · rw [if_neg hcond] at hspec
              cases hspec

/-- C2, witness: on a 1000-sector disk with partition `[100, 150)`, reading
two sectors at partition-relative sector 48 is in range and lands at absolute
sector 148, while the same read at sector 49 would end at relative sector 51
and is rejected. -/
theorem claim2_witness :
    grub_disk_adjust_range diskPart 48 0 1024 = Except.ok (148, 0) ∧
    adjust_range_spec diskPart 48 0 1024 = Option.some (148, 0) ∧
    grub_disk_adjust_range diskPart 49 0 1024 = Except.error GErr.outOfRange := by
  have h := claim2 diskPart 48 0 1024 (by norm_num)
    (by show 48 + 0 / 512 + partsStartSum diskPart.partition < 2^64; decide)
    (by intro t ht
        have : t = 1000 := by
          have h0 : Option.some (1000 : Nat) = Option.some t := ht
          exact (Option.some.inj h0).symm
        subst this
        decide)
  refine ⟨?_, by rfl, by rfl⟩
  rw [h.1]
  rfl

/-- The hook loop makes no calls for an empty remaining length. -/
theorem hookCalls_zero (s o : Nat) : hookCalls s o 0 = [] := rfl

/-- The hook loop does not depend on the fuel, as long as the fuel covers the
remaining length. -/
theorem hookCallsAux_fuel (fuel1 : Nat) : ∀ fuel2 s o l, l ≤ fuel1 → l ≤ fuel2 →
    hookCallsAux fuel1 s o l = hookCallsAux fuel2 s o l := by
  induction fuel1 with
  | zero =>
      intro fuel2 s o l h1 h2
      have hl : l = 0 := by omega
      subst hl
      cases fuel2 with
      | zero => rfl
      | succ fuel2 => simp [hookCallsAux]
  | succ fuel1 ih =>
      intro fuel2 s o l h1 h2
      cases fuel2 with
      | zero =>
          have hl : l = 0 := by omega
          subst hl
          simp [hookCallsAux]
      | succ fuel2 =>
          simp only [hookCallsAux]
          by_cases hl : l = 0
          · rw [if_pos hl, if_pos hl]
          · rw [if_neg hl, if_neg hl]
            by_cases hcl : min (512 - o) l = 0
            · rw [if_pos hcl, if_pos hcl]
            · rw [if_neg hcl, if_neg hcl]
              rw [ih fuel2 (s + 1) 0 (l - min (512 - o) l) (by omega) (by omega)]

/-- One unfolding of the hook loop: the next call covers `min (512 - o) l`
bytes. -/
theorem hookCalls_pos (s o l : Nat) (ho : o < 512) (hl : 0 < l) :
    hookCalls s o l =
      (s, o, min (512 - o) l) :: hookCalls (s + 1) 0 (l - min (512 - o) l) := by
  obtain ⟨k, rfl⟩ : ∃ k, l = k + 1 := ⟨l - 1, by omega⟩
  show hookCallsAux (k + 1) s o (k + 1) = _
  simp only [hookCallsAux]
  rw [if_neg (by omega), if_neg (by omega : ¬ (min (512 - o) (k + 1) = 0))]
  rw [hookCallsAux_fuel k (k + 1 - min (512 - o) (k + 1)) (s + 1) 0
    (k + 1 - min (512 - o) (k + 1)) (by omega) (by omega)]
  rfl

/-- The hook-call lengths sum to the requested size. -/
theorem hookCalls_sum (s o l : Nat) (ho : o < 512) :
    ((hookCalls s o l).map (fun x => x.2.2)).sum = l := by
  by_cases hl : l = 0
  · subst hl
    rw [hookCalls_zero]
    rfl
  · rw [hookCalls_pos s o l ho (by omega)]
    simp only [List.map_cons, List.sum_cons]
    rw [hookCalls_sum (s + 1) 0 (l - min (512 - o) l) (by omega)]
    omega
termination_by l
decreasing_by omega

/-- The hook is called once per logical sector, in increasing order starting
at `s`. -/
theorem hookCalls_sectors (s o l : Nat) (ho : o < 512) :
    (hookCalls s o l).map (fun x => x.1) = List.range' s (hookCalls s o l).length := by
  by_cases hl : l = 0
  · subst hl
    rw [hookCalls_zero]
    rfl
  · rw [hookCalls_pos s o l ho (by omega)]
    simp only [List.map_cons, List.length_cons]
    rw [hookCalls_sectors (s + 1) 0 (l - min (512 - o) l) (by omega)]
    rw [List.range'_succ]
termination_by l
decreasing_by omega

/-- The first hook call is `(s, o, min (512 - o) l)`. -/
theorem hookCalls_headD (s o l : Nat) (ho : o < 512) (hl : 0 < l) :
    (hookCalls s o l).headD (0, 0, 0) = (s, o, min (512 - o) l) := by
  rw [hookCalls_pos s o l ho hl]
  rfl

/-- Every later hook call `i` is at sector `s + i` with offset 0 and length
`min 512 (remaining)`. -/
theorem hookCalls_getD (s o l : Nat) (ho : o < 512) :
    ∀ i, 0 < i → i < (hookCalls s o l).length →
      (hookCalls s o l).getD i (0, 0, 0) = (s + i, 0, min 512 (l + o - 512 * i)) := by
  intro i hi hlen
  by_cases hl : l = 0
  · subst hl
    rw [hookCalls_zero] at hlen
    simp at hlen
  · rw [hookCalls_pos s o l ho (by omega)] at hlen ⊢
    obtain ⟨i2, rfl⟩ : ∃ i2, i = i2 + 1 := ⟨i - 1, by omega⟩
    simp only [List.getD_cons_succ]
    simp only [List.length_cons] at hlen
    have htl : i2 < (hookCalls (s + 1) 0 (l - min (512 - o) l)).length := by omega
    have hlt : 0 < l - min (512 - o) l := by
      by_contra h0
      have hz : l - min (512 - o) l = 0 := by omega
      rw [hz, hookCalls_zero] at htl
      simp at htl
    have hcl : min (512 - o) l = 512 - o := by omega
    by_cases hi2 : 0 < i2
    · rw [hookCalls_getD (s + 1) 0 (l - min (512 - o) l) (by omega) i2 hi2 htl]
      have e1 : s + 1 + i2 = s + (i2 + 1) := by omega
      have e2 : l - min (512 - o) l + 0 - 512 * i2 = l + o - 512 * (i2 + 1) := by omega
      rw [e1, e2]
    · have hz : i2 = 0 := by omega
      subst hz
      rw [hookCalls_pos (s + 1) 0 (l - min (512 - o) l) (by omega) hlt]
      simp only [List.getD_cons_zero]
      have e2 : min (512 - 0) (l - min (512 - o) l) = min 512 (l + o - 512 * (0 + 1)) := by
        omega
      rw [show s + 1 = s + (0 + 1) from rfl, e2]
termination_by l
decreasing_by omega

/-- On success `grub_disk_adjust_range` returns the normalised offset
`offset % 512`. -/
theorem adjust_ok_offset (d : Disk) (sector offset size rs ro : Nat)
    (h : grub_disk_adjust_range d sector offset size = Except.ok (rs, ro)) :
    ro = offset % 512 := by
  simp only [grub_disk_adjust_range] at h
  split at h
  · cases h
  · split at h
    · simp only [Except.ok.injEq, Prod.mk.injEq] at h
      exact h.2.symm
    · split at h
      · cases h
      · simp only [Except.ok.injEq, Prod.mk.injEq] at h
        exact h.2.symm

/-- A failing driver read leaves `grub_errno` at the driver error. -/
theorem devRead_none_errno (dev : DevModel) (d : Disk) (st : St) (s n : Nat)
    (h : (devRead dev d st s n).1 = Option.none) :
    (devRead dev d st s n).2.errno = GErr.ioErr := by
  cases hok : dev.rOk s n with
  | false => simp [devRead, hok]
  | true => simp [devRead, hok] at h

/-- The fallback of the small read never returns `GRUB_ERR_NONE` as an
error. -/
theorem read_small_fallback_error_ne (dev : DevModel) (d : Disk) (st : St)
    (sector offset size : Nat) (e : GErr)
    (h : (read_small_fallback dev d st sector offset size).2 = Except.error e) :
    e ≠ GErr.noErr := by
  simp only [read_small_fallback] at h
  split at h
  · simp only [Except.error.injEq] at h
    subst h
    decide
  · split at h
    · rename_i heq
      simp only [Except.error.injEq] at h
      subst h
      rw [devRead_none_errno dev d _ _ _ heq]
      decide
    · cases h

/-- `grub_disk_read_small` never returns `GRUB_ERR_NONE` as an error. -/
theorem read_small_error_ne (dev : DevModel) (d : Disk) (st : St)
    (sector offset size : Nat) (e : GErr)
    (h : (grub_disk_read_small dev d st sector offset size).2 = Except.error e) :
    e ≠ GErr.noErr := by
  simp only [grub_disk_read_small] at h
  split at h
  · cases h
  · split at h
    · simp only [Except.error.injEq] at h
      subst h
      decide
    · split at h
      · split at h
        · cases h
        · exact read_small_fallback_error_ne dev d _ sector offset size e h
      · exact read_small_fallback_error_ne dev d _ sector offset size e h

/-- The body loop only fails with the driver error. -/
theorem read_body_error_eq (dev : DevModel) (d : Disk) (fuel : Nat) (r : RdSt)
    (st2 : St) (e : GErr) (buf2 : Nat → Nat)
    (h : read_body dev d fuel r = Except.error (st2, e, buf2)) : e = GErr.ioErr := by
  induction fuel generalizing r with
  | zero => cases h
  | succ fuel ih =>
      simp only [read_body] at h
      split at h
      · cases h
      · split at h
        · split at h
          · simp only [Except.error.injEq, Prod.mk.injEq] at h
            exact h.2.1.symm
          · exact ih _ h
        · exact ih _ h

/-- The head phase never returns `GRUB_ERR_NONE` as an error. -/
theorem read_head_error_ne (dev : DevModel) (d : Disk) (st : St)
    (sector offset size : Nat) (buf : Nat → Nat) (p : St × GErr)
    (h : read_head dev d st sector offset size buf = Except.error p) :
    p.2 ≠ GErr.noErr := by
  simp only [read_head] at h
  split at h
  · split at h
    · rename_i e heq
      simp only [Except.error.injEq] at h
      subst h
      exact read_small_error_ne dev d st _ _ _ e heq
    · cases h
  · cases h

/-- When `grub_disk_read` returns `GRUB_ERR_NONE` the data path ran to
completion, so the hook loop fired over the saved
`(real_sector, real_offset, real_size)`. -/
theorem read_noErr_hooks (dev : DevModel) (d : Disk) (st : St)
    (sector offset size : Nat) (buf : Nat → Nat) (rs ro : Nat)
    (hadj : grub_disk_adjust_range d sector offset size = Except.ok (rs, ro))
    (hret : (grub_disk_read dev d st sector offset size buf).ret = GErr.noErr) :
    (grub_disk_read dev d st sector offset size buf).hooks =
      (if d.read_hook = true then hookCalls rs ro size else []) := by
  simp only [grub_disk_read] at hret ⊢
  rw [hadj] at hret ⊢
  simp only [] at hret ⊢
  generalize hh : read_head dev d st rs ro size buf = rh at hret ⊢
  cases rh with
  | error p =>
      obtain ⟨st1, e⟩ := p
      simp only [] at hret
      exact absurd hret (read_head_error_ne dev d st rs ro size buf (st1, e) hh)
  | ok hd =>
      simp only [] at hret ⊢
      generalize hb : read_body dev d (hd.size + 1) hd = rb at hret ⊢
      cases rb with
      | error q =>
          obtain ⟨st2, e, buf2⟩ := q
          simp only [] at hret
          have he := read_body_error_eq dev d (hd.size + 1) hd st2 e buf2 hb
          subst he
          cases hret
      | ok b =>
          simp only [] at hret ⊢
          by_cases hsz : b.size ≠ 0
          · rw [if_pos hsz] at hret ⊢
            generalize ht : (grub_disk_read_small dev d b.st b.sector 0 b.size).2 = ts at hret ⊢
            cases ts with
            | error e =>
                simp only [] at hret
                exact absurd hret (read_small_error_ne dev d b.st b.sector 0 b.size e ht)
            | ok chunk =>
                simp only []
          · rw [if_neg hsz]

/-- C5: when a read on a disk with a read hook installed returns without
error, the hook fires once per logical sector touched: the invocation list is
exactly the loop over the saved `(real_sector, real_offset, real_size)`; the
sector arguments increase by one from `real_sector`; the lengths sum to the
requested size; the first call is `(real_sector, real_offset,
min (512 - real_offset) size)`; and every later call `i` has offset `0` and
length `min 512 (remaining)` where `remaining = size + real_offset - 512 i`. -/
theorem claim5 (dev : DevModel) (d : Disk) (st : St) (sector offset size : Nat)
    (buf : Nat → Nat) (rs ro : Nat)
    (hadj : grub_disk_adjust_range d sector offset size = Except.ok (rs, ro))
    (hhook : d.read_hook = true)
    (hret : (grub_disk_read dev d st sector offset size buf).ret = GErr.noErr) :
    (grub_disk_read dev d st sector offset size buf).hooks = hookCalls rs ro size ∧
    (((grub_disk_read dev d st sector offset size buf).hooks).map
      (fun x => x.2.2)).sum = size ∧
    ((grub_disk_read dev d st sector offset size buf).hooks).map (fun x => x.1) =
      List.range' rs ((grub_disk_read dev d st sector offset size buf).hooks).length ∧
    (0 < size → ((grub_disk_read dev d st sector offset size buf).hooks).headD (0, 0, 0) =
      (rs, ro, min (512 - ro) size)) ∧
    (∀ i, 0 < i → i < ((grub_disk_read dev d st sector offset size buf).hooks).length →
      ((grub_disk_read dev d st sector offset size buf).hooks).getD i (0, 0, 0) =
        (rs + i, 0, min 512 (size + ro - 512 * i))) := by
  have ho : ro = offset % 512 := adjust_ok_offset d sector offset size rs ro hadj
  have ho2 : ro < 512 := by
    rw [ho]
    exact Nat.mod_lt offset (by omega)
  have hh := read_noErr_hooks dev d st sector offset size buf rs ro hadj hret
  rw [if_pos hhook] at hh
  rw [hh]
  refine ⟨rfl, hookCalls_sum rs ro size ho2, hookCalls_sectors rs ro size ho2, ?_, ?_⟩
  · intro hsz
    exact hookCalls_headD rs ro size ho2 hsz
  · intro i hi hlen
    exact hookCalls_getD rs ro size ho2 i hi hlen

/-- C5, witness: a hooked 1000-byte read at `(sector 0, offset 100)` fires
three hook calls `(0, 100, 412), (1, 0, 512), (2, 0, 76)`. -/
theorem claim5_witness :
    grub_disk_adjust_range diskHook 0 100 1000 = Except.ok (0, 100) ∧
    (grub_disk_read devOkAll diskHook stA 0 100 1000 (fun _ => 0)).ret = GErr.noErr ∧
    (grub_disk_read devOkAll diskHook stA 0 100 1000 (fun _ => 0)).hooks =
      hookCalls 0 100 1000 ∧
    hookCalls 0 100 1000 = [(0, 100, 412), (1, 0, 512), (2, 0, 76)] := by
  have h := claim5 devOkAll diskHook stA 0 100 1000 (fun _ => 0) 0 100 (by rfl)
    (by rfl) (by decide)
  exact ⟨by rfl, by decide, h.1, by decide⟩

set_option maxRecDepth 8192

/-- C3: evaluation at the failing input.  On `diskA` (unknown size, so the
small read takes the full-cluster path) with the cache-store `grub_malloc`
failing (`stOOM`), a 512-byte read at sector 0 delivers all 512 requested
bytes into the output buffer from the single full-cluster driver read — yet
`grub_disk_read` returns `GRUB_ERR_OUT_OF_MEMORY` to the caller, because the
swallowed store failure left `grub_errno` set and the final statement of
`grub_disk_read` is `return grub_errno`.  This contradicts the claim (and
the stated intent of discarding the store result) that the request still
returns success. -/
theorem claim3_code_bug :
    readC3.ret = GErr.outOfMemory ∧
    (∀ i, i < 512 → readC3.buf i = (i + 3) % 256) ∧
    readC3.st.trace = [Ev.rd 0 64] :=
  ⟨by decide, by decide, by decide⟩

/-- A cache fetch changes at most a lock bit: key fields and data of every
slot are untouched. -/
theorem fetch_keeps (dd di s : Nat) (c : Cache) (i : Nat) :
    (((grub_disk_cache_fetch dd di s c).2) i).dev_id = (c i).dev_id ∧
    (((grub_disk_cache_fetch dd di s c).2) i).disk_id = (c i).disk_id ∧
    (((grub_disk_cache_fetch dd di s c).2) i).sector = (c i).sector ∧
    (((grub_disk_cache_fetch dd di s c).2) i).data = (c i).data := by
  simp only [grub_disk_cache_fetch]
  split
  · simp only []
    by_cases hi : i = grub_disk_cache_get_index dd di s
    · subst hi
      rw [Function.update_same]
      exact ⟨rfl, rfl, rfl, rfl⟩
    · rw [Function.update_noteq hi]
      exact ⟨rfl, rfl, rfl, rfl⟩
  · exact ⟨rfl, rfl, rfl, rfl⟩

/-- C7, counterexample: on a disk of exactly 64 logical sectors the cluster
at sector 0 fits entirely within the disk, yet the strict bound
`sector + GRUB_DISK_CACHE_SIZE < total` makes `grub_disk_read_small` skip
the full-cluster read (which would be a driver read of 64 sectors) and go
straight to the minimal one-sector fallback read. -/
theorem claim7_counterexample :
    diskFit.total_sectors = Option.some 64 ∧
    0 + 64 ≤ 64 * 2^(diskFit.log_sector_size - 9) ∧
    cluster_fits diskFit 0 = false ∧
    (grub_disk_read_small devOkAll diskFit stA 0 0 512).1.trace = [Ev.rd 0 1] ∧
    (∀ e ∈ (grub_disk_read_small devOkAll diskFit stA 0 0 512).1.trace,
       e ≠ Ev.rd 0 64) :=
  ⟨by decide, by decide, by decide, by decide, by decide⟩

/-- Behaviour of the minimal fallback read when all allocations succeed: it
issues exactly one driver read over the aligned window, touches no cache
slot, and a driver error there is returned (fatal), while on success the
slice is delivered. -/
theorem read_small_fallback_spec (dev : DevModel) (d : Disk) (st : St)
    (sector offset size : Nat) (hallocs : st.allocs = []) :
    (read_small_fallback dev d st sector offset size).1.trace =
      st.trace ++ [Ev.rd (transform_sector d (fallback_aligned d sector offset))
        (fallback_num d sector offset size)] ∧
    (∀ i, (read_small_fallback dev d st sector offset size).1.cache i = st.cache i) ∧
    (dev.rOk (transform_sector d (fallback_aligned d sector offset))
        (fallback_num d sector offset size) = false →
      (read_small_fallback dev d st sector offset size).2 = Except.error GErr.ioErr) ∧
    (dev.rOk (transform_sector d (fallback_aligned d sector offset))
        (fallback_num d sector offset size) = true →
      ∃ ch, (read_small_fallback dev d st sector offset size).2 = Except.ok ch) := by
  cases hrok : dev.rOk (transform_sector d (fallback_aligned d sector offset))
      (fallback_num d sector offset size) with
  | false =>
      refine ⟨?_, ?_, ?_, ?_⟩ <;>
        simp [read_small_fallback, mallocOk, hallocs, devRead, hrok]
  | true =>
      refine ⟨?_, ?_, ?_, ?_⟩ <;>
        simp [read_small_fallback, mallocOk, hallocs, devRead, hrok]

/-- C7, amended: on a cache miss with all allocations succeeding,
`grub_disk_read_small` attempts the full-cluster driver read exactly when
`total_sectors` is unknown or `sector + 64` is strictly below the disk size
in logical sectors (`cluster_fits` — note the strict bound, which also sends
an exactly-fitting last cluster to the fallback); on success of that read
the slice is delivered and the cluster is stored into the cache.  When the
cluster does not fit strictly, or when the full-cluster read fails, only the
minimal aligned native-sector fallback read is issued over the computed
window, no cache slot is filled, and a driver error in the fallback is fatal
to the request. -/
theorem claim7_amended (dev : DevModel) (d : Disk) (st : St) (sector offset size : Nat)
    (res : St × Except GErr (Nat → Nat))
    (hres : res = grub_disk_read_small dev d st sector offset size)
    (hmiss : (grub_disk_cache_fetch d.dev_id d.id sector st.cache).1 = Option.none)
    (hallocs : st.allocs = []) :
    ((cluster_fits d sector = true ∧
        dev.rOk (transform_sector d sector) (2^(15 - d.log_sector_size)) = true) →
      res.1.trace = st.trace ++
        [Ev.rd (transform_sector d sector) (2^(15 - d.log_sector_size))] ∧
      (∃ ch, res.2 = Except.ok ch) ∧
      (res.1.cache (grub_disk_cache_get_index d.dev_id d.id sector)).data.isSome = true ∧
      (res.1.cache (grub_disk_cache_get_index d.dev_id d.id sector)).sector = sector ∧
      (res.1.cache (grub_disk_cache_get_index d.dev_id d.id sector)).dev_id = d.dev_id ∧
      (res.1.cache (grub_disk_cache_get_index d.dev_id d.id sector)).disk_id = d.id) ∧
    (cluster_fits d sector = false →
      res.1.trace = st.trace ++
        [Ev.rd (transform_sector d (fallback_aligned d sector offset))
          (fallback_num d sector offset size)] ∧
      (∀ i, (res.1.cache i).data = (st.cache i).data) ∧
      (dev.rOk (transform_sector d (fallback_aligned d sector offset))
          (fallback_num d sector offset size) = false →
        res.2 = Except.error GErr.ioErr) ∧
      (dev.rOk (transform_sector d (fallback_aligned d sector offset))
          (fallback_num d sector offset size) = true →
        ∃ ch, res.2 = Except.ok ch)) ∧
    ((cluster_fits d sector = true ∧
        dev.rOk (transform_sector d sector) (2^(15 - d.log_sector_size)) = false) →
      res.1.trace = st.trace ++
        [Ev.rd (transform_sector d sector) (2^(15 - d.log_sector_size)),
         Ev.rd (transform_sector d (fallback_aligned d sector offset))
           (fallback_num d sector offset size)] ∧
      (∀ i, (res.1.cache i).data = (st.cache i).data) ∧
      (dev.rOk (transform_sector d (fallback_aligned d sector offset))
          (fallback_num d sector offset size) = false →
        res.2 = Except.error GErr.ioErr) ∧
      (dev.rOk (transform_sector d (fallback_aligned d sector offset))
          (fallback_num d sector offset size) = true →
        ∃ ch, res.2 = Except.ok ch)) := by
  subst hres
  refine ⟨?_, ?_, ?_⟩
  · rintro ⟨hfit, hrok⟩
    refine ⟨?_, ?_, ?_, ?_, ?_, ?_⟩ <;>
      simp [grub_disk_read_small, hmiss, mallocOk, hallocs, hfit, hrok, devRead,
        grub_disk_cache_store, Function.update_same]
  · intro hfit
    have key : grub_disk_read_small dev d st sector offset size =
        read_small_fallback dev d
          { cache := (grub_disk_cache_fetch d.dev_id d.id sector st.cache).2,
            errno := GErr.noErr, allocs := [], content := st.content,
            trace := st.trace } sector offset size := by
      simp [grub_disk_read_small, hmiss, mallocOk, hallocs, hfit]
    rw [key]
    have hsp := read_small_fallback_spec dev d
      { cache := (grub_disk_cache_fetch d.dev_id d.id sector st.cache).2,
        errno := GErr.noErr, allocs := [], content := st.content,
        trace := st.trace } sector offset size rfl
    refine ⟨hsp.1, ?_, hsp.2.2.1, hsp.2.2.2⟩
    intro i
    rw [hsp.2.1 i]
    exact (fetch_keeps d.dev_id d.id sector st.cache i).2.2.2
  · rintro ⟨hfit, hrok⟩
    have key : grub_disk_read_small dev d st sector offset size =
        read_small_fallback dev d
          { cache := (grub_disk_cache_fetch d.dev_id d.id sector st.cache).2,
            errno := GErr.noErr, allocs := [], content := st.content,
            trace := st.trace ++
              [Ev.rd (transform_sector d sector) (2^(15 - d.log_sector_size))] }
          sector offset size := by
      simp [grub_disk_read_small, hmiss, mallocOk, hallocs, hfit, hrok, devRead]
    rw [key]
    have hsp := read_small_fallback_spec dev d
      { cache := (grub_disk_cache_fetch d.dev_id d.id sector st.cache).2,
        errno := GErr.noErr, allocs := [], content := st.content,
        trace := st.trace ++
          [Ev.rd (transform_sector d sector) (2^(15 - d.log_sector_size))] }
      sector offset size rfl
    refine ⟨?_, ?_, hsp.2.2.1, hsp.2.2.2⟩
    · rw [hsp.1]
      simp
    · intro i
      rw [hsp.2.1 i]
      exact (fetch_keeps d.dev_id d.id sector st.cache i).2.2.2

/-- C7, witness: on the exactly-64-sector disk the amended theorem applies at
`(sector 0, offset 0, size 512)`: the cluster does not fit strictly, and the
trace is exactly the single minimal fallback read. -/
theorem claim7_witness :
    cluster_fits diskFit 0 = false ∧
    (grub_disk_read_small devOkAll diskFit stA 0 0 512).1.trace =
      stA.trace ++ [Ev.rd (transform_sector diskFit (fallback_aligned diskFit 0 0))
        (fallback_num diskFit 0 0 512)] := by
  have h := claim7_amended devOkAll diskFit stA 0 0 512 _ rfl (by rfl) rfl
  exact ⟨by decide, (h.2.1 (by decide)).1⟩

/-- For a native-sector-aligned sector, the driver read base address in bytes
is the sector's byte address. -/
theorem transform_base (d : Disk) (sector : Nat) (hL9 : 9 ≤ d.log_sector_size)
    (hL15 : d.log_sector_size ≤ 15)
    (hnat : sector % 2^(d.log_sector_size - 9) = 0) :
    transform_sector d sector * 2^d.log_sector_size = sector * 512 := by
  unfold transform_sector
  rw [Nat.shiftRight_eq_div_pow]
  generalize hL : d.log_sector_size = L at *
  interval_cases L <;> (norm_num at hnat ⊢; try omega)

/-- A native-sector-aligned block lies inside the cluster it starts in. -/
theorem native_block_in_cluster (d : Disk) (sector : Nat) (hL9 : 9 ≤ d.log_sector_size)
    (hL15 : d.log_sector_size ≤ 15)
    (hnat : sector % 2^(d.log_sector_size - 9) = 0) :
    cluster_align sector * 512 ≤ sector * 512 ∧
    sector * 512 + 2^d.log_sector_size ≤ cluster_align sector * 512 + 32768 := by
  unfold cluster_align
  generalize hL : d.log_sector_size = L at *
  interval_cases L <;> (norm_num at hnat ⊢; try omega)

/-- A 64-aligned sector is aligned to any native sector size up to the
cluster size. -/
theorem align64_native (d : Disk) (sector : Nat) (hL15 : d.log_sector_size ≤ 15)
    (h64 : sector % 64 = 0) : sector % 2^(d.log_sector_size - 9) = 0 := by
  generalize hL : d.log_sector_size = L at *
  rcases Nat.lt_or_ge L 9 with h9 | h9
  · interval_cases L <;> (norm_num; omega)
  · interval_cases L <;> (norm_num; omega)

/-- Cache coherence only depends on the key fields and buffers of the slots,
not on the lock bits. -/
theorem CacheInv_congr (content : Nat → Nat) (dd di : Nat) (c c2 : Cache)
    (h : ∀ i, (c2 i).dev_id = (c i).dev_id ∧ (c2 i).disk_id = (c i).disk_id ∧
      (c2 i).sector = (c i).sector ∧ (c2 i).data = (c i).data)
    (hc : CacheInv content dd di c) : CacheInv content dd di c2 := by
  intro i hdev hdisk data hdata
  obtain ⟨h1, h2, h3, h4⟩ := h i
  have := hc i (h1 ▸ hdev) (h2 ▸ hdisk) data (h4 ▸ hdata)
  rw [h3]
  exact this

/-- A cache unlock changes at most a lock bit. -/
theorem unlock_keeps (dd di s : Nat) (c : Cache) (i : Nat) :
    (((grub_disk_cache_unlock dd di s c) i).dev_id = (c i).dev_id ∧
    ((grub_disk_cache_unlock dd di s c) i).disk_id = (c i).disk_id ∧
    ((grub_disk_cache_unlock dd di s c) i).sector = (c i).sector ∧
    ((grub_disk_cache_unlock dd di s c) i).data = (c i).data) := by
  simp only [grub_disk_cache_unlock]
  split
  · by_cases hi : i = grub_disk_cache_get_index dd di s
    · subst hi
      rw [Function.update_same]
      exact ⟨rfl, rfl, rfl, rfl⟩
    · rw [Function.update_noteq hi]
      exact ⟨rfl, rfl, rfl, rfl⟩
  · exact ⟨rfl, rfl, rfl, rfl⟩

/-- Cache invalidation leaves each slot untouched or merely frees its
buffer. -/
theorem invalidate_keeps (dd di s : Nat) (c : Cache) (i : Nat) :
    ((grub_disk_cache_invalidate dd di s c) i).dev_id = (c i).dev_id ∧
    ((grub_disk_cache_invalidate dd di s c) i).disk_id = (c i).disk_id ∧
    ((grub_disk_cache_invalidate dd di s c) i).sector = (c i).sector ∧
    (((grub_disk_cache_invalidate dd di s c) i).data = (c i).data ∨
      ((grub_disk_cache_invalidate dd di s c) i).data = Option.none) := by
  simp only [grub_disk_cache_invalidate]
  split
  · by_cases hi : i = grub_disk_cache_get_index dd di (cluster_align s)
    · subst hi
      rw [Function.update_same]
      exact ⟨rfl, rfl, rfl, Or.inr rfl⟩
    · rw [Function.update_noteq hi]
      exact ⟨rfl, rfl, rfl, Or.inl rfl⟩
  · exact ⟨rfl, rfl, rfl, Or.inl rfl⟩

/-- Cache invalidation preserves coherence. -/
theorem invalidate_cacheInv (content : Nat → Nat) (dd di dd2 di2 s : Nat) (c : Cache)
    (hc : CacheInv content dd di c) :
    CacheInv content dd di (grub_disk_cache_invalidate dd2 di2 s c) := by
  intro i hdev hdisk data hdata
  obtain ⟨h1, h2, h3, h4⟩ := invalidate_keeps dd2 di2 s c i
  rcases h4 with h4 | h4
  · have := hc i (h1 ▸ hdev) (h2 ▸ hdisk) data (h4 ▸ hdata)
    rw [h3]
    exact this
  · rw [h4] at hdata
    cases hdata

/-- A fetch preserves coherence. -/
theorem fetch_cacheInv (content : Nat → Nat) (dd di dd2 di2 s : Nat) (c : Cache)
    (hc : CacheInv content dd di c) :
    CacheInv content dd di (grub_disk_cache_fetch dd2 di2 s c).2 :=
  CacheInv_congr content dd di c _ (fun i => fetch_keeps dd2 di2 s c i) hc

/-- An unlock preserves coherence. -/
theorem unlock_cacheInv (content : Nat → Nat) (dd di dd2 di2 s : Nat) (c : Cache)
    (hc : CacheInv content dd di c) :
    CacheInv content dd di (grub_disk_cache_unlock dd2 di2 s c) :=
  CacheInv_congr content dd di c _ (fun i => unlock_keeps dd2 di2 s c i) hc

/-- The cache resulting from a store, as a single slot update. -/
theorem store_snd (dd di s : Nat) (bytes : Nat → Nat) (ok : Bool) (c : Cache) :
    (grub_disk_cache_store dd di s bytes ok c).2 =
      Function.update c (grub_disk_cache_get_index dd di s)
        (if ok then
          { dev_id := dd, disk_id := di, sector := s,
            data := Option.some (fun j => bytes j), lock := false }
        else { c (grub_disk_cache_get_index dd di s) with
            data := Option.none, lock := false }) := by
  cases ok <;> rfl

/-- A store of the current device bytes of a cluster-aligned cluster
preserves coherence (a failed store merely empties the slot). -/
theorem store_cacheInv (content : Nat → Nat) (dd di s : Nat) (bytes : Nat → Nat)
    (ok : Bool) (c : Cache) (hc : CacheInv content dd di c)
    (halign : s % 64 = 0)
    (hfresh : ok = true → ∀ j, j < 32768 → bytes j = content (s * 512 + j)) :
    CacheInv content dd di (grub_disk_cache_store dd di s bytes ok c).2 := by
  intro i hdev hdisk data hdata
  rw [store_snd] at hdev hdisk hdata ⊢
  by_cases hi : i = grub_disk_cache_get_index dd di s
  · subst hi
    rw [Function.update_same] at hdev hdisk hdata ⊢
    cases ok with
    | false =>
        rw [if_neg (by simp)] at hdata
        simp at hdata
    | true =>
        rw [if_pos rfl] at hdata ⊢
        simp only [] at hdata
        obtain rfl : (fun j => bytes j) = data := Option.some.inj hdata
        exact ⟨rfl, halign, fun j hj => hfresh rfl j hj⟩
  · rw [Function.update_noteq hi] at hdev hdisk hdata ⊢
    exact hc i hdev hdisk data hdata

/-- After an invalidation, no occupied slot of this disk is keyed to the
invalidated cluster (coherence supplies the placement of such a slot at the
hashed index, which the invalidation clears). -/
theorem invalidate_removes (content : Nat → Nat) (dd di s : Nat) (c : Cache)
    (hc : CacheInv content dd di c) :
    ∀ i, ¬ (((grub_disk_cache_invalidate dd di s c) i).dev_id = dd ∧
      ((grub_disk_cache_invalidate dd di s c) i).disk_id = di ∧
      ((grub_disk_cache_invalidate dd di s c) i).sector = cluster_align s ∧
      ((grub_disk_cache_invalidate dd di s c) i).data.isSome = true) := by
  intro i
  rintro ⟨h1, h2, h3, h4⟩
  simp only [grub_disk_cache_invalidate] at h1 h2 h3 h4
  by_cases hcond : ((c (grub_disk_cache_get_index dd di (cluster_align s))).dev_id = dd ∧
      (c (grub_disk_cache_get_index dd di (cluster_align s))).disk_id = di ∧
      (c (grub_disk_cache_get_index dd di (cluster_align s))).sector = cluster_align s ∧
      (c (grub_disk_cache_get_index dd di (cluster_align s))).data.isSome = true)
  · rw [if_pos hcond] at h1 h2 h3 h4
    by_cases hi : i = grub_disk_cache_get_index dd di (cluster_align s)
    · subst hi
      rw [Function.update_same] at h4
      simp at h4
    · rw [Function.update_noteq hi] at h1 h2 h3 h4
      obtain ⟨data, hdata⟩ := Option.isSome_iff_exists.mp h4
      have := (hc i h1 h2 data hdata).1
      rw [h3] at this
      exact hi this.symm
  · rw [if_neg hcond] at h1 h2 h3 h4
    by_cases hi : i = grub_disk_cache_get_index dd di (cluster_align s)
    · subst hi
      exact hcond ⟨h1, h2, h3, h4⟩
    · obtain ⟨data, hdata⟩ := Option.isSome_iff_exists.mp h4
      have := (hc i h1 h2 data hdata).1
      rw [h3] at this
      exact hi this.symm

/-- `ReadPres` is reflexive. -/
theorem ReadPres_refl (dd di : Nat) (st : St) : ReadPres dd di st st :=
  ⟨rfl, ⟨[], (List.append_nil _).symm, fun e he => absurd he (List.not_mem_nil e)⟩,
   fun h => h⟩

/-- `ReadPres` composes. -/
theorem ReadPres_trans (dd di : Nat) (st1 st2 st3 : St)
    (h12 : ReadPres dd di st1 st2) (h23 : ReadPres dd di st2 st3) :
    ReadPres dd di st1 st3 := by
  obtain ⟨hc12, ⟨e1, ht1, hr1⟩, hi12⟩ := h12
  obtain ⟨hc23, ⟨e2, ht2, hr2⟩, hi23⟩ := h23
  refine ⟨hc23.trans hc12, ⟨e1 ++ e2, ?_, ?_⟩, ?_⟩
  · rw [ht2, ht1, List.append_assoc]
  · intro e he
    rcases List.mem_append.mp he with h | h
    · exact hr1 e h
    · exact hr2 e h
  · intro h
    rw [hc12] at hi23
    exact hi23 (hi12 h)

/-- A pure `errno` change is read-preserving. -/
theorem ReadPres_errno (dd di : Nat) (st : St) (e : GErr) :
    ReadPres dd di st { st with errno := e } :=
  ⟨rfl, ⟨[], (List.append_nil _).symm, fun x hx => absurd hx (List.not_mem_nil x)⟩,
   fun h => h⟩

/-- A malloc consumes only the allocation oracle. -/
theorem mallocOk_snd (st : St) :
    (mallocOk st).2.content = st.content ∧ (mallocOk st).2.cache = st.cache ∧
    (mallocOk st).2.trace = st.trace ∧ (mallocOk st).2.errno = st.errno := by
  rcases hst : st.allocs with _ | ⟨b, bs⟩ <;> simp [mallocOk, hst]

/-- A malloc is read-preserving. -/
theorem mallocOk_pres (dd di : Nat) (st : St) : ReadPres dd di st (mallocOk st).2 := by
  rcases hst : st.allocs with _ | ⟨b, bs⟩ <;> simp only [mallocOk, hst] <;>
    exact ⟨rfl, ⟨[], (List.append_nil _).symm, fun x hx => absurd hx (List.not_mem_nil x)⟩,
      fun h => h⟩

/-- A driver read is read-preserving: it records one read event and leaves
contents and cache alone. -/
theorem devRead_pres (dd di : Nat) (dev : DevModel) (d : Disk) (st : St) (s n : Nat) :
    ReadPres dd di st (devRead dev d st s n).2 := by
  simp only [devRead]
  split
  · exact ⟨rfl, ⟨[Ev.rd s n], rfl, fun e he => by
      rw [List.mem_singleton] at he
      subst he
      trivial⟩, fun h => h⟩
  · exact ⟨rfl, ⟨[Ev.rd s n], rfl, fun e he => by
      rw [List.mem_singleton] at he
      subst he
      trivial⟩, fun h => h⟩

/-- A successful driver read returns the device bytes at the read window. -/
theorem devRead_some (dev : DevModel) (d : Disk) (st : St) (s n : Nat)
    (bytes : Nat → Nat) (h : (devRead dev d st s n).1 = Option.some bytes) :
    ∀ j, bytes j = st.content (s * 2^d.log_sector_size + j) := by
  simp only [devRead] at h
  split at h
  · simp only [Option.some.injEq] at h
    subst h
    intro j
    rfl
  · cases h

/-- The small-read fallback is read-preserving. -/
theorem fallback_pres (dd di : Nat) (dev : DevModel) (d : Disk) (st : St)
    (sector offset size : Nat) :
    ReadPres dd di st (read_small_fallback dev d st sector offset size).1 := by
  simp only [read_small_fallback]
  split
  · exact ReadPres_trans dd di st _ _ (mallocOk_pres dd di st) (ReadPres_errno dd di _ _)
  · have hr : ReadPres dd di st (devRead dev d (mallocOk st).2
        (transform_sector d (fallback_aligned d sector offset))
        (fallback_num d sector offset size)).2 :=
      ReadPres_trans dd di st _ _ (mallocOk_pres dd di st) (devRead_pres dd di dev d _ _ _)
    split
    · exact hr
    · exact hr

/-- `grub_disk_read_small` is read-preserving: it never touches the device
contents, emits only driver-read events, and, when entered at a
cluster-aligned sector, keeps the cache coherent (the only slot it fills
receives the device bytes of exactly that cluster). -/
theorem read_small_pres (dev : DevModel) (d : Disk) (st : St)
    (sector offset size : Nat) (hL9 : 9 ≤ d.log_sector_size)
    (hL15 : d.log_sector_size ≤ 15) (halign : sector % 64 = 0) :
    ReadPres d.dev_id d.id st (grub_disk_read_small dev d st sector offset size).1 := by
  have h0 : ReadPres d.dev_id d.id st
      { st with cache := (grub_disk_cache_fetch d.dev_id d.id sector st.cache).2 } :=
    ⟨rfl, ⟨[], (List.append_nil _).symm, fun x hx => absurd hx (List.not_mem_nil x)⟩,
     fun h => fetch_cacheInv st.content d.dev_id d.id d.dev_id d.id sector st.cache h⟩
  simp only [grub_disk_read_small]
  split
  · exact ReadPres_trans d.dev_id d.id st _ _ h0
      ⟨rfl, ⟨[], (List.append_nil _).symm, fun x hx => absurd hx (List.not_mem_nil x)⟩,
       fun h => unlock_cacheInv _ d.dev_id d.id d.dev_id d.id sector _ h⟩
  · split
    · exact ReadPres_trans d.dev_id d.id st _ _
        (ReadPres_trans d.dev_id d.id st _ _ h0 (mallocOk_pres d.dev_id d.id _))
        (ReadPres_errno d.dev_id d.id _ _)
    · split
      · split
        · rename_i tmp_buf heqr
          refine ReadPres_trans d.dev_id d.id st
            ((mallocOk (devRead dev d (mallocOk { st with cache :=
              (grub_disk_cache_fetch d.dev_id d.id sector st.cache).2 }).2
              (transform_sector d sector) (2^(15 - d.log_sector_size))).2).2) _
            (ReadPres_trans d.dev_id d.id st _ _
              (ReadPres_trans d.dev_id d.id st _ _
                (ReadPres_trans d.dev_id d.id st _ _ h0 (mallocOk_pres d.dev_id d.id _))
                (devRead_pres d.dev_id d.id dev d _ _ _))
              (mallocOk_pres d.dev_id d.id _)) ?_
          refine ⟨rfl, ⟨[], (List.append_nil _).symm,
            fun x hx => absurd hx (List.not_mem_nil x)⟩, ?_⟩
          intro h
          refine store_cacheInv _ d.dev_id d.id sector tmp_buf _ _ h halign ?_
          intro _ j hj
          have h1 := devRead_some dev d _ _ _ tmp_buf heqr j
          rw [transform_base d sector hL9 hL15 (align64_native d sector hL15 halign)] at h1
          rw [h1]
          have e2 := (mallocOk_snd (devRead dev d
            (mallocOk { st with cache :=
              (grub_disk_cache_fetch d.dev_id d.id sector st.cache).2 }).2
            (transform_sector d sector) (2^(15 - d.log_sector_size))).2).1
          have e1 := (devRead_pres d.dev_id d.id dev d
            (mallocOk { st with cache :=
              (grub_disk_cache_fetch d.dev_id d.id sector st.cache).2 }).2
            (transform_sector d sector) (2^(15 - d.log_sector_size))).1
          rw [e2, e1]
        · exact ReadPres_trans d.dev_id d.id st _ _
            (ReadPres_trans d.dev_id d.id st _ _
              (ReadPres_trans d.dev_id d.id st _ _
                (ReadPres_trans d.dev_id d.id st _ _ h0 (mallocOk_pres d.dev_id d.id _))
                (devRead_pres d.dev_id d.id dev d _ _ _))
              (ReadPres_errno d.dev_id d.id _ _))
            (fallback_pres d.dev_id d.id dev d _ sector offset size)
      · exact ReadPres_trans d.dev_id d.id st _ _
          (ReadPres_trans d.dev_id d.id st _ _
            (ReadPres_trans d.dev_id d.id st _ _ h0 (mallocOk_pres d.dev_id d.id _))
            (ReadPres_errno d.dev_id d.id _ _))
          (fallback_pres d.dev_id d.id dev d _ sector offset size)

/-- A fallback error is left in `grub_errno`. -/
theorem fallback_errno_eq (dev : DevModel) (d : Disk) (st : St)
    (sector offset size : Nat) (e : GErr)
    (h : (read_small_fallback dev d st sector offset size).2 = Except.error e) :
    (read_small_fallback dev d st sector offset size).1.errno = e := by
  simp only [read_small_fallback] at h ⊢
  split at h
  · rename_i hc
    rw [if_pos hc]
    simp only [Except.error.injEq] at h
    exact h
  · rename_i hc
    rw [if_neg hc]
    split at h
    · rename_i heq
      simp only [Except.error.injEq] at h
      simp only [heq]
      exact h
    · rename_i heq
      simp only [heq] at h
      cases h

/-- A small-read error is left in `grub_errno`. -/
theorem read_small_errno_eq (dev : DevModel) (d : Disk) (st : St)
    (sector offset size : Nat) (e : GErr)
    (h : (grub_disk_read_small dev d st sector offset size).2 = Except.error e) :
    (grub_disk_read_small dev d st sector offset size).1.errno = e := by
  simp only [grub_disk_read_small] at h ⊢
  split at h
  · rename_i heq
    simp only [heq] at h
    cases h
  · rename_i heq
    try simp only [heq]
    split at h
    · rename_i hc
      rw [if_pos hc]
      simp only [Except.error.injEq] at h
      exact h
    · rename_i hc
      rw [if_neg hc]
      split at h
      · rename_i hfit
        rw [if_pos hfit]
        split at h
        · rename_i heqr
          simp only [heqr] at h
          cases h
        · rename_i heqr
          try simp only [heqr]
          exact fallback_errno_eq dev d _ sector offset size e h
      · rename_i hfit
        rw [if_neg hfit]
        exact fallback_errno_eq dev d _ sector offset size e h

/-- A driver write appends exactly one write event and leaves cache and
allocation oracle alone. -/
theorem devWrite_keeps (dev : DevModel) (d : Disk) (st : St) (s n : Nat)
    (buf : Nat → Nat) :
    (devWrite dev d st s n buf).2.trace = st.trace ++ [Ev.wr s n] ∧
    (devWrite dev d st s n buf).2.cache = st.cache ∧
    (devWrite dev d st s n buf).2.allocs = st.allocs := by
  simp only [devWrite]
  split <;> exact ⟨rfl, rfl, rfl⟩

/-- A failing driver write sets `grub_errno` to the driver error. -/
theorem devWrite_false_errno (dev : DevModel) (d : Disk) (st : St) (s n : Nat)
    (buf : Nat → Nat) (h : (devWrite dev d st s n buf).1 = false) :
    (devWrite dev d st s n buf).2.errno = GErr.ioErr := by
  cases hok : dev.wOk s n
  · simp [devWrite, hok]
  · simp [devWrite, hok] at h

/-- A successful driver write replaces exactly the written byte window. -/
theorem devWrite_true_content (dev : DevModel) (d : Disk) (st : St) (s n : Nat)
    (buf : Nat → Nat) (h : (devWrite dev d st s n buf).1 = true) :
    (devWrite dev d st s n buf).2.content = fun a =>
      if s * 2^d.log_sector_size ≤ a ∧ a < (s + n) * 2^d.log_sector_size then
        buf (a - s * 2^d.log_sector_size)
      else st.content a := by
  cases hok : dev.wOk s n
  · simp [devWrite, hok] at h
  · simp [devWrite, hok]

/-- A head-phase error is left in `grub_errno`. -/
theorem read_head_error_errno (dev : DevModel) (d : Disk) (st : St)
    (sector offset size : Nat) (buf : Nat → Nat) (p : St × GErr)
    (h : read_head dev d st sector offset size buf = Except.error p) :
    p.1.errno = p.2 := by
  simp only [read_head] at h
  split at h
  · split at h
    · rename_i e heq
      simp only [Except.error.injEq] at h
      subst h
      exact read_small_errno_eq dev d st _ _ _ e heq
    · cases h
  · cases h

/-- A body-phase error is left in `grub_errno`. -/
theorem read_body_error_errno (dev : DevModel) (d : Disk) (fuel : Nat) (r : RdSt)
    (q : St × GErr × (Nat → Nat)) (h : read_body dev d fuel r = Except.error q) :
    q.1.errno = q.2.1 := by
  induction fuel generalizing r with
  | zero => cases h
  | succ fuel ih =>
      simp only [read_body] at h
      split at h
      · cases h
      · split at h
        · split at h
          · rename_i heq
            simp only [Except.error.injEq] at h
            subst h
            exact devRead_none_errno dev d _ _ _ heq
          · exact ih _ h
        · exact ih _ h

/-- `grub_disk_read` returns exactly the final `grub_errno` (the explicit
early returns all leave the returned error in `grub_errno` too, and the final
path literally returns `grub_errno`). -/
theorem read_ret_eq_errno (dev : DevModel) (d : Disk) (st : St)
    (sector offset size : Nat) (buf : Nat → Nat) :
    (grub_disk_read dev d st sector offset size buf).ret =
      (grub_disk_read dev d st sector offset size buf).st.errno := by
  simp only [grub_disk_read]
  generalize ha : grub_disk_adjust_range d sector offset size = adj
  cases adj with
  | error e => rfl
  | ok sp =>
      obtain ⟨s1, o1⟩ := sp
      simp only []
      generalize hh : read_head dev d st s1 o1 size buf = rh
      cases rh with
      | error p =>
          obtain ⟨st1, e⟩ := p
          simp only []
          exact (read_head_error_errno dev d st s1 o1 size buf (st1, e) hh).symm
      | ok hd =>
          simp only []
          generalize hb : read_body dev d (hd.size + 1) hd = rb
          cases rb with
          | error q =>
              obtain ⟨st2, e, buf2⟩ := q
              simp only []
              exact (read_body_error_errno dev d (hd.size + 1) hd (st2, e, buf2) hb).symm
          | ok b =>
              simp only []
              split
              · generalize ht : (grub_disk_read_small dev d b.st b.sector 0 b.size).2 = ts
                cases ts with
                | error e =>
                    simp only []
                    exact (read_small_errno_eq dev d b.st b.sector 0 b.size e ht).symm
                | ok chunk => rfl
              · rfl

/-- Cluster alignment yields a cluster-aligned sector. -/
theorem cluster_align_mod (s : Nat) : cluster_align s % 64 = 0 := by
  unfold cluster_align
  omega

/-- The head phase is read-preserving and hands the body either an exhausted
request or a cluster-aligned cursor. -/
theorem read_head_pres (dev : DevModel) (d : Disk) (st : St)
    (sector offset size : Nat) (buf : Nat → Nat)
    (hL9 : 9 ≤ d.log_sector_size) (hL15 : d.log_sector_size ≤ 15)
    (hoff : offset < 512) :
    (∀ p, read_head dev d st sector offset size buf = Except.error p →
        ReadPres d.dev_id d.id st p.1) ∧
    (∀ r, read_head dev d st sector offset size buf = Except.ok r →
        ReadPres d.dev_id d.id st r.st ∧ (r.size = 0 ∨ r.sector % 64 = 0)) := by
  constructor
  · intro p h
    simp only [read_head] at h
    split at h
    · split at h
      · rename_i e heq
        simp only [Except.error.injEq] at h
        subst h
        exact read_small_pres dev d st _ _ _ hL9 hL15 (cluster_align_mod sector)
      · cases h
    · cases h
  · intro r h
    simp only [read_head] at h
    split at h
    · rename_i hcond
      split at h
      · cases h
      · rename_i chunk heq
        simp only [Except.ok.injEq] at h
        subst h
        refine ⟨read_small_pres dev d st _ _ _ hL9 hL15 (cluster_align_mod sector), ?_⟩
        have h9 : ∀ x : Nat, x >>> 9 = x / 512 := fun x => by
          rw [Nat.shiftRight_eq_div_pow]
        simp only [h9]
        unfold cluster_align
        omega
    · rename_i hcond
      simp only [Except.ok.injEq] at h
      subst h
      refine ⟨ReadPres_refl d.dev_id d.id st, Or.inr ?_⟩
      by_contra hne
      exact hcond (Or.inr hne)

/-- The agglomeration scan only locks slots, keeping coherence. -/
theorem agg_scan_cacheInv (content : Nat → Nat) (dd di dd2 di2 base : Nat)
    (k agg : Nat) (c : Cache) (hc : CacheInv content dd di c) :
    CacheInv content dd di (agg_scan dd2 di2 base k agg c).2.1 := by
  induction k generalizing agg c with
  | zero => exact hc
  | succ k ih =>
      simp only [agg_scan]
      split
      · exact fetch_cacheInv content dd di dd2 di2 _ c hc
      · exact ih _ _ (fetch_cacheInv content dd di dd2 di2 _ c hc)

/-- One cache-population step of the body loop (a malloc plus a store of
fresh device bytes) is read-preserving, whatever `grub_errno` it leaves. -/
theorem store_step_pres (d : Disk) (s : Nat) (bytes : Nat → Nat) (st : St)
    (halign : s % 64 = 0)
    (hfresh : ∀ j, j < 32768 → bytes j = st.content (s * 512 + j)) :
    ∀ e2, ReadPres d.dev_id d.id st
      { (mallocOk st).2 with
        cache := (grub_disk_cache_store d.dev_id d.id s bytes (mallocOk st).1
          (mallocOk st).2.cache).2,
        errno := e2 } := by
  intro e2
  refine ReadPres_trans d.dev_id d.id st _ _ (mallocOk_pres d.dev_id d.id st)
    ⟨rfl, ⟨[], (List.append_nil _).symm, fun x hx => absurd hx (List.not_mem_nil x)⟩, ?_⟩
  intro h
  refine store_cacheInv _ d.dev_id d.id s bytes _ _ h halign ?_
  intro _ j hj
  rw [(mallocOk_snd st).1]
  exact hfresh j hj

/-- The cache-population loop after an agglomerated body read is
read-preserving when the big buffer holds the device bytes starting at the
(cluster-aligned) base sector. -/
theorem store_loop_pres (d : Disk) (sector : Nat) (bigbuf : Nat → Nat)
    (i k : Nat) (st : St) (halign : sector % 64 = 0)
    (hfresh : ∀ j, bigbuf j = st.content (sector * 512 + j)) :
    ReadPres d.dev_id d.id st (store_loop d sector bigbuf i k st) := by
  induction k generalizing i st with
  | zero => exact ReadPres_refl _ _ _
  | succ k ih =>
      simp only [store_loop]
      have hst := store_step_pres d (sector + i * 64) (fun j => bigbuf (i * 32768 + j)) st
        (by omega)
        (by intro j hj
            show bigbuf (i * 32768 + j) = st.content ((sector + i * 64) * 512 + j)
            rw [hfresh (i * 32768 + j)]
            congr 1
            ring)
      refine ReadPres_trans d.dev_id d.id st _ _ (hst _) (ih (i + 1) _ ?_)
      intro j
      show bigbuf j = (mallocOk st).2.content (sector * 512 + j)
      rw [(mallocOk_snd st).1]
      exact hfresh j

/-- A step that only rewrites the cache coherently is read-preserving. -/
theorem pres_cache_only (dd di : Nat) (st : St) (c2 : Cache)
    (h : CacheInv st.content dd di st.cache → CacheInv st.content dd di c2) :
    ReadPres dd di st { st with cache := c2 } :=
  ⟨rfl, ⟨[], (List.append_nil _).symm, fun x hx => absurd hx (List.not_mem_nil x)⟩, h⟩

/-- A driver read leaves the device contents untouched. -/
theorem devRead_content (dev : DevModel) (d : Disk) (st : St) (s n : Nat) :
    (devRead dev d st s n).2.content = st.content :=
  (devRead_pres 0 0 dev d st s n).1

/-- The body phase is read-preserving and, on normal exit, leaves either an
exhausted request or a cluster-aligned cursor for the tail. -/
theorem read_body_pres (dev : DevModel) (d : Disk) (fuel : Nat)
    (hL9 : 9 ≤ d.log_sector_size) (hL15 : d.log_sector_size ≤ 15) :
    ∀ r : RdSt, (r.size = 0 ∨ r.sector % 64 = 0) →
      (∀ q, read_body dev d fuel r = Except.error q →
          ReadPres d.dev_id d.id r.st q.1) ∧
      (∀ b, read_body dev d fuel r = Except.ok b →
          ReadPres d.dev_id d.id r.st b.st ∧ (b.size = 0 ∨ b.sector % 64 = 0)) := by
  induction fuel with
  | zero =>
      intro r halign
      constructor
      · intro q h
        cases h
      · intro b h
        simp only [read_body, Except.ok.injEq] at h
        subst h
        exact ⟨ReadPres_refl d.dev_id d.id r.st, halign⟩
  | succ fuel ih =>
      intro r halign
      constructor
      · intro q h
        simp only [read_body] at h
        split at h
        · cases h
        · rename_i hsz
          have hal : r.sector % 64 = 0 := by
            rcases halign with h0 | h0
            · omega
            · exact h0
          split at h
          · rename_i hagg
            split at h
            · rename_i heqr
              simp only [Except.error.injEq] at h
              subst h
              refine ReadPres_trans d.dev_id d.id r.st _ _ ?_
                (devRead_pres d.dev_id d.id dev d _ _ _)
              split
              · exact pres_cache_only d.dev_id d.id r.st _
                  (fun hc => unlock_cacheInv _ d.dev_id d.id d.dev_id d.id _ _
                    (agg_scan_cacheInv _ d.dev_id d.id d.dev_id d.id r.sector _ 0
                      r.st.cache hc))
              · exact pres_cache_only d.dev_id d.id r.st _
                  (agg_scan_cacheInv _ d.dev_id d.id d.dev_id d.id r.sector _ 0
                    r.st.cache)
            · rename_i bigbuf heqr
              split at h
              · rename_i data heqs
                have hds := devRead_some dev d _ _ _ bigbuf heqr
                have htb := transform_base d r.sector hL9 hL15
                  (align64_native d r.sector hL15 hal)
                refine ReadPres_trans d.dev_id d.id r.st _ _
                  (ReadPres_trans d.dev_id d.id r.st _ _
                    (ReadPres_trans d.dev_id d.id r.st _ _
                      (pres_cache_only d.dev_id d.id r.st _
                        (fun hc => unlock_cacheInv _ d.dev_id d.id d.dev_id d.id _ _
                          (agg_scan_cacheInv _ d.dev_id d.id d.dev_id d.id r.sector _ 0
                            r.st.cache hc)))
                      (devRead_pres d.dev_id d.id dev d _ _ _))
                    (store_loop_pres d r.sector bigbuf 0 _ _ hal ?_))
                  ((ih _ (Or.inr (by simp only []; omega))).1 q h)
                intro j
                rw [devRead_content, hds j, htb]
                simp only [heqs]
              · rename_i heqs
                have hds := devRead_some dev d _ _ _ bigbuf heqr
                have htb := transform_base d r.sector hL9 hL15
                  (align64_native d r.sector hL15 hal)
                refine ReadPres_trans d.dev_id d.id r.st _ _
                  (ReadPres_trans d.dev_id d.id r.st _ _
                    (ReadPres_trans d.dev_id d.id r.st _ _
                      (pres_cache_only d.dev_id d.id r.st _
                        (agg_scan_cacheInv _ d.dev_id d.id d.dev_id d.id r.sector _ 0
                          r.st.cache))
                      (devRead_pres d.dev_id d.id dev d _ _ _))
                    (store_loop_pres d r.sector bigbuf 0 _ _ hal ?_))
                  ((ih _ (Or.inr (by simp only []; omega))).1 q h)
                intro j
                rw [devRead_content, hds j, htb]
                simp only [heqs]
          · rename_i hagg
            split at h
            · rename_i data heqs
              exact ReadPres_trans d.dev_id d.id r.st _ _
                (pres_cache_only d.dev_id d.id r.st _
                  (fun hc => unlock_cacheInv _ d.dev_id d.id d.dev_id d.id _ _
                    (agg_scan_cacheInv _ d.dev_id d.id d.dev_id d.id r.sector _ 0
                      r.st.cache hc)))
                ((ih _ (Or.inr (by simp only []; omega))).1 q h)
            · rename_i heqs
              exact ReadPres_trans d.dev_id d.id r.st _ _
                (pres_cache_only d.dev_id d.id r.st _
                  (agg_scan_cacheInv _ d.dev_id d.id d.dev_id d.id r.sector _ 0
                    r.st.cache))
                ((ih _ (Or.inr (by simp only []; omega))).1 q h)
      · intro b h
        simp only [read_body] at h
        split at h
        · simp only [Except.ok.injEq] at h
          subst h
          exact ⟨ReadPres_refl d.dev_id d.id r.st, halign⟩
        · rename_i hsz
          have hal : r.sector % 64 = 0 := by
            rcases halign with h0 | h0
            · omega
            · exact h0
          split at h
          · rename_i hagg
            split at h
            · cases h
            · rename_i bigbuf heqr
              split at h
              · rename_i data heqs
                have hds := devRead_some dev d _ _ _ bigbuf heqr
                have htb := transform_base d r.sector hL9 hL15
                  (align64_native d r.sector hL15 hal)
                obtain ⟨hp, hb⟩ := (ih _ (Or.inr (by simp only []; omega))).2 b h
                refine ⟨ReadPres_trans d.dev_id d.id r.st _ _
                  (ReadPres_trans d.dev_id d.id r.st _ _
                    (ReadPres_trans d.dev_id d.id r.st _ _
                      (pres_cache_only d.dev_id d.id r.st _
                        (fun hc => unlock_cacheInv _ d.dev_id d.id d.dev_id d.id _ _
                          (agg_scan_cacheInv _ d.dev_id d.id d.dev_id d.id r.sector _ 0
                            r.st.cache hc)))
                      (devRead_pres d.dev_id d.id dev d _ _ _))
                    (store_loop_pres d r.sector bigbuf 0 _ _ hal ?_))
                  hp, hb⟩
                intro j
                rw [devRead_content, hds j, htb]
                simp only [heqs]
              · rename_i heqs
                have hds := devRead_some dev d _ _ _ bigbuf heqr
                have htb := transform_base d r.sector hL9 hL15
                  (align64_native d r.sector hL15 hal)
                obtain ⟨hp, hb⟩ := (ih _ (Or.inr (by simp only []; omega))).2 b h
                refine ⟨ReadPres_trans d.dev_id d.id r.st _ _
                  (ReadPres_trans d.dev_id d.id r.st _ _
                    (ReadPres_trans d.dev_id d.id r.st _ _
                      (pres_cache_only d.dev_id d.id r.st _
                        (agg_scan_cacheInv _ d.dev_id d.id d.dev_id d.id r.sector _ 0
                          r.st.cache))
                      (devRead_pres d.dev_id d.id dev d _ _ _))
                    (store_loop_pres d r.sector bigbuf 0 _ _ hal ?_))
                  hp, hb⟩
                intro j
                rw [devRead_content, hds j, htb]
                simp only [heqs]
          · rename_i hagg
            split at h
            · rename_i data heqs
              obtain ⟨hp, hb⟩ := (ih _ (Or.inr (by simp only []; omega))).2 b h
              exact ⟨ReadPres_trans d.dev_id d.id r.st _ _
                (pres_cache_only d.dev_id d.id r.st _
                  (fun hc => unlock_cacheInv _ d.dev_id d.id d.dev_id d.id _ _
                    (agg_scan_cacheInv _ d.dev_id d.id d.dev_id d.id r.sector _ 0
                      r.st.cache hc)))
                hp, hb⟩
            · rename_i heqs
              obtain ⟨hp, hb⟩ := (ih _ (Or.inr (by simp only []; omega))).2 b h
              exact ⟨ReadPres_trans d.dev_id d.id r.st _ _
                (pres_cache_only d.dev_id d.id r.st _
                  (agg_scan_cacheInv _ d.dev_id d.id d.dev_id d.id r.sector _ 0
                    r.st.cache))
                hp, hb⟩

/-- `grub_disk_read` is read-preserving: whatever it returns, the device
contents are unchanged, the trace grows only by driver reads, and cache
coherence for the disk survives. -/
theorem grub_disk_read_pres (dev : DevModel) (d : Disk) (st : St)
    (sector offset size : Nat) (buf : Nat → Nat)
    (hL9 : 9 ≤ d.log_sector_size) (hL15 : d.log_sector_size ≤ 15) :
    ReadPres d.dev_id d.id st (grub_disk_read dev d st sector offset size buf).st := by
  simp only [grub_disk_read]
  generalize ha : grub_disk_adjust_range d sector offset size = adj
  cases adj with
  | error e => exact ReadPres_errno d.dev_id d.id st e
  | ok sp =>
      obtain ⟨s1, o1⟩ := sp
      have ho : o1 < 512 := by
        rw [adjust_ok_offset d sector offset size s1 o1 ha]
        exact Nat.mod_lt offset (by omega)
      simp only []
      generalize hh : read_head dev d st s1 o1 size buf = rh
      cases rh with
      | error p =>
          exact (read_head_pres dev d st s1 o1 size buf hL9 hL15 ho).1 p hh
      | ok hd =>
          obtain ⟨hph, hah⟩ := (read_head_pres dev d st s1 o1 size buf hL9 hL15 ho).2 hd hh
          simp only []
          generalize hb : read_body dev d (hd.size + 1) hd = rb
          cases rb with
          | error q =>
              exact ReadPres_trans d.dev_id d.id st _ _ hph
                ((read_body_pres dev d (hd.size + 1) hL9 hL15 hd hah).1 q hb)
          | ok b =>
              obtain ⟨hpb, hab⟩ := (read_body_pres dev d (hd.size + 1) hL9 hL15 hd hah).2 b hb
              have hpre := ReadPres_trans d.dev_id d.id st _ _ hph hpb
              simp only []
              split
              · rename_i hbsz
                have halt : b.sector % 64 = 0 := by
                  rcases hab with h0 | h0
                  · exact absurd h0 hbsz
                  · exact h0
                generalize ht : (grub_disk_read_small dev d b.st b.sector 0 b.size).2 = ts
                have hpt := read_small_pres dev d b.st b.sector 0 b.size hL9 hL15 halt
                cases ts with
                | error e => exact ReadPres_trans d.dev_id d.id st _ _ hpre hpt
                | ok chunk => exact ReadPres_trans d.dev_id d.id st _ _ hpre hpt
              · exact hpre

/-- A Boolean that is not `false` is `true`. -/
theorem bool_ne_false (b : Bool) (h : ¬ b = false) : b = true := by
  rcases b
  · exact absurd rfl h
  · rfl

/-- Coherence transfers to new device contents that agree with the old ones
on every cached cluster. -/
theorem CacheInv_content (content content2 : Nat → Nat) (dd di : Nat) (c : Cache)
    (hc : CacheInv content dd di c)
    (hkeep : ∀ i data, (c i).dev_id = dd → (c i).disk_id = di →
      (c i).data = Option.some data → ∀ j, j < 32768 →
        content2 ((c i).sector * 512 + j) = content ((c i).sector * 512 + j)) :
    CacheInv content2 dd di c := by
  intro i hdev hdisk data hdata
  obtain ⟨h1, h2, h3⟩ := hc i hdev hdisk data hdata
  exact ⟨h1, h2, fun j hj =>
    (h3 j hj).trans (hkeep i data hdev hdisk hdata j hj).symm⟩

/-- The read-modify-write step of `grub_disk_write`: when the inner read
succeeds, the step's trace is the inner read's driver reads, then the cache
invalidation of the covering cluster, then the one-sector driver write (the
invalidation precedes the write); a `finish` outcome always carries a set
`grub_errno`; and a continued loop keeps native alignment and cache
coherence. -/
theorem write_rmw_spec (dev : DevModel) (d : Disk) (buf : Nat → Nat) (w : WrSt)
    (hL9 : 9 ≤ d.log_sector_size) (hL15 : d.log_sector_size ≤ 15)
    (hnat : w.sector % 2^(d.log_sector_size - 9) = 0) :
    ((grub_disk_read dev { d with partition := [] } w.st w.sector 0
        (2^d.log_sector_size) (fun _ => 0)).ret = GErr.noErr →
      ∃ evs, (∀ e ∈ evs, Ev.isRead e) ∧
        (write_rmw_step dev d buf w).st.trace =
          w.st.trace ++ evs ++ [Ev.inval d.dev_id d.id w.sector,
            Ev.wr (transform_sector d w.sector) 1]) ∧
    (∀ stf, write_rmw_step dev d buf w = WStep.finish stf →
      stf.errno ≠ GErr.noErr) ∧
    (∀ w1, write_rmw_step dev d buf w = WStep.cont w1 →
      w1.sector % 2^(d.log_sector_size - 9) = 0 ∧
      (CacheInv w.st.content d.dev_id d.id w.st.cache →
        CacheInv w1.st.content d.dev_id d.id w1.st.cache)) := by
  have hm : ReadPres d.dev_id d.id w.st
      (grub_disk_read dev { d with partition := [] } w.st w.sector 0
        (2^d.log_sector_size) (fun _ => 0)).st :=
    grub_disk_read_pres dev { d with partition := [] } w.st w.sector 0
      (2^d.log_sector_size) (fun _ => 0) hL9 hL15
  refine ⟨?_, ?_, ?_⟩
  · intro hret
    obtain ⟨hcont, ⟨evs, htr, hred⟩, hinv⟩ := hm
    simp only [write_rmw_step]
    split
    · rename_i hcond
      exact absurd hret hcond
    · rename_i hcond
      refine ⟨evs, hred, ?_⟩
      split
      · simp only [WStep.st]
        rw [(devWrite_keeps dev d _ _ _ _).1]
        simp only [cache_invalidate_st]
        rw [htr]
        simp [List.append_assoc]
      · simp only [WStep.st]
        rw [(devWrite_keeps dev d _ _ _ _).1]
        simp only [cache_invalidate_st]
        rw [htr]
        simp [List.append_assoc]
  · intro stf h
    simp only [write_rmw_step] at h
    split at h
    · rename_i hcond
      simp only [WStep.finish.injEq] at h
      subst h
      rw [← read_ret_eq_errno]
      exact hcond
    · split at h
      · rename_i hdw
        simp only [WStep.finish.injEq] at h
        subst h
        rw [devWrite_false_errno dev d _ _ _ _ hdw]
        decide
      · cases h
  · intro w1 h
    simp only [write_rmw_step] at h
    split at h
    · cases h
    · rename_i hcond
      split at h
      · cases h
      · rename_i hdw
        have hdwt := bool_ne_false _ hdw
        simp only [WStep.cont.injEq] at h
        subst h
        constructor
        · simp only []
          rw [Nat.add_mod, hnat, Nat.mod_self]
          simp
        · intro hc
          simp only []
          have hc0 := hm.2.2 hc
          have hc1 : CacheInv w.st.content d.dev_id d.id
              (cache_invalidate_st d (grub_disk_read dev { d with partition := [] }
                w.st w.sector 0 (2^d.log_sector_size) (fun _ => 0)).st w.sector).cache := by
            simp only [cache_invalidate_st]
            exact invalidate_cacheInv w.st.content d.dev_id d.id d.dev_id d.id
              w.sector _ hc0
          have hrm := invalidate_removes w.st.content d.dev_id d.id w.sector _ hc0
          rw [devWrite_true_content dev d _ _ _ _ hdwt,
            (devWrite_keeps dev d _ _ _ _).2.1]
          have htb := transform_base d w.sector hL9 hL15 hnat
          have h2 : (transform_sector d w.sector + 1) * 2^d.log_sector_size =
              w.sector * 512 + 2^d.log_sector_size := by
            rw [Nat.add_mul, one_mul, htb]
          simp only [htb, h2, cache_invalidate_st]
          rw [hm.1]
          refine CacheInv_content w.st.content _ d.dev_id d.id _ hc1 ?_
          intro i data hdev hdisk hdata j hj
          simp only [cache_invalidate_st] at hdev hdisk hdata ⊢
          have hne : ((grub_disk_cache_invalidate d.dev_id d.id w.sector
              (grub_disk_read dev { d with partition := [] } w.st w.sector 0
                (2^d.log_sector_size) (fun _ => 0)).st.cache) i).sector ≠
              cluster_align w.sector := by
            intro he
            exact hrm i ⟨hdev, hdisk, he, by rw [hdata]; rfl⟩
          have hsal := (hc1 i hdev hdisk data hdata).2.1
          simp only [cache_invalidate_st] at hsal
          have hni := native_block_in_cluster d w.sector hL9 hL15 hnat
          have hca : cluster_align w.sector = w.sector - w.sector % 64 := rfl
          have hslotal := cluster_align_mod w.sector
          rw [if_neg ?_]
          intro hcond2
          omega

/-- The driver-write outcome is the driver model's verdict. -/
theorem devWrite_fst (dev : DevModel) (d : Disk) (st : St) (s n : Nat)
    (buf : Nat → Nat) : (devWrite dev d st s n buf).1 = dev.wOk s n := by
  cases hok : dev.wOk s n <;> simp [devWrite, hok]

/-- The invalidation loop touches only cache and trace, appending exactly the
per-cluster invalidation events, and leaves the cursor advanced by `n` native
sectors. -/
theorem inval_loop_spec (d : Disk) (n : Nat) (st : St) (sector : Nat) :
    (inval_loop d n st sector).1.content = st.content ∧
    (inval_loop d n st sector).1.errno = st.errno ∧
    (inval_loop d n st sector).1.trace = st.trace ++ invEvents d sector n ∧
    (inval_loop d n st sector).2 = sector + n * 2^(d.log_sector_size - 9) := by
  induction n generalizing st sector with
  | zero =>
      refine ⟨rfl, rfl, by simp [invEvents, inval_loop], by simp [inval_loop]⟩
  | succ n ih =>
      simp only [inval_loop]
      obtain ⟨hc, he, ht, hs⟩ := ih (cache_invalidate_st d st sector)
        (sector + 2^(d.log_sector_size - 9))
      refine ⟨hc.trans rfl, he.trans rfl, ?_, ?_⟩
      · rw [ht]
        simp only [cache_invalidate_st, invEvents]
        simp [List.append_assoc]
      · rw [hs]
        ring
  
/-- Full coherence is a special case of exempted coherence. -/
theorem CacheInvX_of_inv (content : Nat → Nat) (dd di : Nat) (c : Cache)
    (bad : Nat → Prop) (hc : CacheInv content dd di c) :
    CacheInvX content dd di c bad := by
  intro i h1 h2 data hd
  obtain ⟨a, b, f⟩ := hc i h1 h2 data hd
  exact ⟨a, b, Or.inr f⟩

/-- Exempted coherence is monotone in the exemption set. -/
theorem CacheInvX_mono (content : Nat → Nat) (dd di : Nat) (c : Cache)
    (bad bad2 : Nat → Prop) (hb : ∀ s, bad s → bad2 s)
    (hc : CacheInvX content dd di c bad) : CacheInvX content dd di c bad2 := by
  intro i h1 h2 data hd
  obtain ⟨a, b, f⟩ := hc i h1 h2 data hd
  rcases f with f | f
  · exact ⟨a, b, Or.inl (hb _ f)⟩
  · exact ⟨a, b, Or.inr f⟩

/-- An invalidation with a matching occupied slot at the hashed index frees
that slot's buffer. -/
theorem invalidate_hit (dd di s : Nat) (c : Cache)
    (h1 : (c (grub_disk_cache_get_index dd di (cluster_align s))).dev_id = dd)
    (h2 : (c (grub_disk_cache_get_index dd di (cluster_align s))).disk_id = di)
    (h3 : (c (grub_disk_cache_get_index dd di (cluster_align s))).sector =
      cluster_align s)
    (h4 : (c (grub_disk_cache_get_index dd di (cluster_align s))).data.isSome = true) :
    ((grub_disk_cache_invalidate dd di s c)
      (grub_disk_cache_get_index dd di (cluster_align s))).data = Option.none := by
  simp only [grub_disk_cache_invalidate]
  rw [if_pos ⟨h1, h2, h3, h4⟩, Function.update_same]

/-- One write-path invalidation shrinks the exemption set by the invalidated
cluster while preserving exempted coherence. -/
theorem invalidate_stepX (content : Nat → Nat) (dd di s : Nat) (c : Cache)
    (bad : Nat → Prop) (hc : CacheInvX content dd di c bad) :
    CacheInvX content dd di (grub_disk_cache_invalidate dd di s c)
      (fun sa => bad sa ∧ sa ≠ cluster_align s) := by
  intro i h1 h2 data hd
  obtain ⟨k1, k2, k3, k4⟩ := invalidate_keeps dd di s c i
  rcases k4 with k4 | k4
  · rw [k4] at hd
    rw [k1] at h1
    rw [k2] at h2
    obtain ⟨hidx, hal, rest⟩ := hc i h1 h2 data hd
    rw [k3]
    refine ⟨hidx, hal, ?_⟩
    rcases rest with hbad | hfr
    · by_cases hsa : (c i).sector = cluster_align s
      · rw [hsa] at hidx
        have hnone := invalidate_hit dd di s c
          (by rw [hidx]; exact h1) (by rw [hidx]; exact h2)
          (by rw [hidx]; exact hsa) (by rw [hidx, hd]; rfl)
        rw [hidx] at hnone
        rw [k4, hd] at hnone
        cases hnone
      · exact Or.inl ⟨hbad, hsa⟩
    · exact Or.inr hfr
  · rw [k4] at hd
    cases hd

/-- The bulk-write invalidation loop clears every cluster it visits from the
exemption set. -/
theorem inval_loop_X (d : Disk) (n : Nat) (st : St) (sector : Nat)
    (content : Nat → Nat) (bad : Nat → Prop)
    (hc : CacheInvX content d.dev_id d.id st.cache bad) :
    CacheInvX content d.dev_id d.id (inval_loop d n st sector).1.cache
      (fun sa => bad sa ∧ ∀ j, j < n →
        sa ≠ cluster_align (sector + j * 2^(d.log_sector_size - 9))) := by
  induction n generalizing st sector bad with
  | zero =>
      exact CacheInvX_mono content _ _ _ _ _
        (fun s hs => ⟨hs, fun j hj => absurd hj (Nat.not_lt_zero j)⟩) hc
  | succ n ih =>
      simp only [inval_loop]
      have h1 := invalidate_stepX content d.dev_id d.id sector st.cache bad hc
      have h2 := ih (cache_invalidate_st d st sector)
        (sector + 2^(d.log_sector_size - 9)) _ h1
      refine CacheInvX_mono content _ _ _ _ _ ?_ h2
      intro sa hsa
      obtain ⟨⟨hb, hne0⟩, hrest⟩ := hsa
      refine ⟨hb, ?_⟩
      intro j hj
      cases j with
      | zero => simpa using hne0
      | succ k =>
          have hk := hrest k (by omega)
          have harg : sector + 2^(d.log_sector_size - 9) + k * 2^(d.log_sector_size - 9) =
              sector + (k + 1) * 2^(d.log_sector_size - 9) := by ring
          rw [harg] at hk
          exact hk

/-- Every cluster overlapping the byte window of an aligned bulk write is the
cluster of one of the written native sectors. -/
theorem bulk_coverage (d : Disk) (sector n sa : Nat)
    (hL9 : 9 ≤ d.log_sector_size) (hL15 : d.log_sector_size ≤ 15)
    (hnat : sector % 2^(d.log_sector_size - 9) = 0) (hsa : sa % 64 = 0)
    (hn : 1 ≤ n)
    (hov1 : sa * 512 < sector * 512 + n * 2^d.log_sector_size)
    (hov2 : sector * 512 < sa * 512 + 32768) :
    ∃ j, j < n ∧ sa = cluster_align (sector + j * 2^(d.log_sector_size - 9)) := by
  refine ⟨if sector ≤ sa then (sa - sector) / 2^(d.log_sector_size - 9) else 0, ?_, ?_⟩
  · generalize hL : d.log_sector_size = L at *
    interval_cases L <;> (norm_num at hnat hov1 ⊢; split <;> omega)
  · unfold cluster_align
    generalize hL : d.log_sector_size = L at *
    interval_cases L <;> (norm_num at hnat hov1 ⊢; split <;> omega)

/-- The aligned-bulk step of `grub_disk_write`: its trace is the single
driver write followed — only if that write succeeded — by the per-cluster
invalidation events (the write precedes every invalidation); a `finish`
outcome carries a set `grub_errno`; a continued loop keeps native alignment
and cache coherence. -/
theorem write_bulk_spec (dev : DevModel) (d : Disk) (buf : Nat → Nat) (w : WrSt)
    (hL9 : 9 ≤ d.log_sector_size) (hL15 : d.log_sector_size ≤ 15)
    (hnat : w.sector % 2^(d.log_sector_size - 9) = 0)
    (hsz : 2^d.log_sector_size ≤ w.size) :
    ((write_bulk_step dev d buf w).st.trace =
      w.st.trace ++ Ev.wr (transform_sector d w.sector)
          (w.size >>> d.log_sector_size) ::
        (if dev.wOk (transform_sector d w.sector) (w.size >>> d.log_sector_size) = true
         then invEvents d w.sector (w.size >>> d.log_sector_size) else [])) ∧
    (∀ stf, write_bulk_step dev d buf w = WStep.finish stf →
      stf.errno ≠ GErr.noErr) ∧
    (∀ w1, write_bulk_step dev d buf w = WStep.cont w1 →
      w1.sector % 2^(d.log_sector_size - 9) = 0 ∧
      (CacheInv w.st.content d.dev_id d.id w.st.cache →
        CacheInv w1.st.content d.dev_id d.id w1.st.cache)) := by
  refine ⟨?_, ?_, ?_⟩
  · simp only [write_bulk_step]
    cases hok : dev.wOk (transform_sector d w.sector) (w.size >>> d.log_sector_size) with
    | false =>
        rw [if_pos (by rw [devWrite_fst, hok])]
        simp only [WStep.st]
        rw [(devWrite_keeps dev d _ _ _ _).1]
        simp [hok]
    | true =>
        rw [if_neg (by rw [devWrite_fst, hok]; simp)]
        simp only [WStep.st]
        obtain ⟨hc, he, ht, hs⟩ := inval_loop_spec d (w.size >>> d.log_sector_size)
          (devWrite dev d w.st (transform_sector d w.sector)
            (w.size >>> d.log_sector_size) (fun i => buf (w.pos + i))).2 w.sector
        rw [ht, (devWrite_keeps dev d _ _ _ _).1]
        simp [hok, List.append_assoc]
  · intro stf h
    simp only [write_bulk_step] at h
    split at h
    · rename_i hcond
      simp only [WStep.finish.injEq] at h
      subst h
      rw [devWrite_false_errno dev d _ _ _ _ hcond]
      decide
    · cases h
  · intro w1 h
    simp only [write_bulk_step] at h
    split at h
    · cases h
    · rename_i hcond
      have hdwt := bool_ne_false _ hcond
      simp only [WStep.cont.injEq] at h
      subst h
      have hn : 1 ≤ w.size >>> d.log_sector_size := by
        rw [Nat.shiftRight_eq_div_pow]
        exact (Nat.one_le_div_iff (Nat.pos_pow_of_pos _ (by omega))).mpr hsz
      constructor
      · simp only []
        rw [(inval_loop_spec d _ _ _).2.2.2, Nat.add_mod, hnat, Nat.mul_mod_left]
        simp
      · intro hc
        simp only []
        have htb := transform_base d w.sector hL9 hL15 hnat
        have h3 : (transform_sector d w.sector + w.size >>> d.log_sector_size) *
            2^d.log_sector_size =
            w.sector * 512 + (w.size >>> d.log_sector_size) * 2^d.log_sector_size := by
          rw [Nat.add_mul, htb]
        have hX0 : CacheInvX (devWrite dev d w.st (transform_sector d w.sector)
            (w.size >>> d.log_sector_size) (fun i => buf (w.pos + i))).2.content
            d.dev_id d.id
            (devWrite dev d w.st (transform_sector d w.sector)
              (w.size >>> d.log_sector_size) (fun i => buf (w.pos + i))).2.cache
            (fun sa => sa * 512 <
                w.sector * 512 + (w.size >>> d.log_sector_size) * 2^d.log_sector_size ∧
              w.sector * 512 < sa * 512 + 32768) := by
          rw [(devWrite_keeps dev d _ _ _ _).2.1]
          intro i h1 h2 data hd
          obtain ⟨hidx, hal, hfresh⟩ := hc i h1 h2 data hd
          refine ⟨hidx, hal, ?_⟩
          by_cases hbad : (w.st.cache i).sector * 512 <
              w.sector * 512 + (w.size >>> d.log_sector_size) * 2^d.log_sector_size ∧
              w.sector * 512 < (w.st.cache i).sector * 512 + 32768
          · exact Or.inl hbad
          · right
            intro j hj
            rw [devWrite_true_content dev d _ _ _ _ hdwt]
            simp only [htb, h3]
            rw [if_neg (by omega)]
            exact hfresh j hj
        have hXfin := inval_loop_X d (w.size >>> d.log_sector_size)
          (devWrite dev d w.st (transform_sector d w.sector)
            (w.size >>> d.log_sector_size) (fun i => buf (w.pos + i))).2 w.sector
          _ _ hX0
        intro i h1 h2 data hd
        rw [(inval_loop_spec d _ _ _).1] at *
        obtain ⟨hidx, hal, hrest⟩ := hXfin i h1 h2 data hd
        refine ⟨hidx, hal, ?_⟩
        rcases hrest with ⟨⟨hov1, hov2⟩, hnone⟩ | hfr
        · obtain ⟨j, hj, hje⟩ := bulk_coverage d w.sector (w.size >>> d.log_sector_size)
            _ hL9 hL15 hnat hal hn hov1 hov2
          exact absurd hje (hnone j hj)
        · exact hfr

/-- Aligning down to a multiple of `k` yields a multiple of `k`. -/
theorem align_down_mod (a k : Nat) : (a - a % k) % k = 0 := by
  have h := Nat.mod_add_div a k
  have h2 : a - a % k = k * (a / k) := by omega
  rw [h2, Nat.mul_mod_right]

/-- Trace shape of the read-modify-write step (no alignment needed): reads,
then the invalidation, then the one-sector driver write. -/
theorem write_rmw_trace (dev : DevModel) (d : Disk) (buf : Nat → Nat) (w : WrSt)
    (hL9 : 9 ≤ d.log_sector_size) (hL15 : d.log_sector_size ≤ 15)
    (hret : (grub_disk_read dev { d with partition := [] } w.st w.sector 0
      (2^d.log_sector_size) (fun _ => 0)).ret = GErr.noErr) :
    ∃ evs, (∀ e ∈ evs, Ev.isRead e) ∧
      (write_rmw_step dev d buf w).st.trace =
        w.st.trace ++ evs ++ [Ev.inval d.dev_id d.id w.sector,
          Ev.wr (transform_sector d w.sector) 1] := by
  obtain ⟨hcont, ⟨evs, htr, hred⟩, hinv⟩ :=
    grub_disk_read_pres dev { d with partition := [] } w.st w.sector 0
      (2^d.log_sector_size) (fun _ => 0) hL9 hL15
  simp only [write_rmw_step]
  split
  · rename_i hcond
    exact absurd hret hcond
  · rename_i hcond
    refine ⟨evs, hred, ?_⟩
    split
    · simp only [WStep.st]
      rw [(devWrite_keeps dev d _ _ _ _).1]
      simp only [cache_invalidate_st]
      rw [htr]
      simp [List.append_assoc]
    · simp only [WStep.st]
      rw [(devWrite_keeps dev d _ _ _ _).1]
      simp only [cache_invalidate_st]
      rw [htr]
      simp [List.append_assoc]

/-- Trace shape of the aligned-bulk step, unconditionally: the driver write
comes first, and the invalidation events follow only if it succeeded. -/
theorem write_bulk_trace (dev : DevModel) (d : Disk) (buf : Nat → Nat) (w : WrSt) :
    (write_bulk_step dev d buf w).st.trace =
      w.st.trace ++ Ev.wr (transform_sector d w.sector)
          (w.size >>> d.log_sector_size) ::
        (if dev.wOk (transform_sector d w.sector) (w.size >>> d.log_sector_size) = true
         then invEvents d w.sector (w.size >>> d.log_sector_size) else []) := by
  simp only [write_bulk_step]
  cases hok : dev.wOk (transform_sector d w.sector) (w.size >>> d.log_sector_size) with
  | false =>
      rw [if_pos (by rw [devWrite_fst, hok])]
      simp only [WStep.st]
      rw [(devWrite_keeps dev d _ _ _ _).1]
      simp [hok]
  | true =>
      rw [if_neg (by rw [devWrite_fst, hok]; simp)]
      simp only [WStep.st]
      obtain ⟨hc, he, ht, hs⟩ := inval_loop_spec d (w.size >>> d.log_sector_size)
        (devWrite dev d w.st (transform_sector d w.sector)
          (w.size >>> d.log_sector_size) (fun i => buf (w.pos + i))).2 w.sector
      rw [ht, (devWrite_keeps dev d _ _ _ _).1]
      simp [hok, List.append_assoc]

/-- The write loop keeps the cache coherent whenever it ends with a clear
`grub_errno` (a `finish` from a failed step always leaves an error set). -/
theorem write_loop_inv (dev : DevModel) (d : Disk) (buf : Nat → Nat) (fuel : Nat) :
    ∀ w : WrSt, 9 ≤ d.log_sector_size → d.log_sector_size ≤ 15 →
      w.sector % 2^(d.log_sector_size - 9) = 0 →
      CacheInv w.st.content d.dev_id d.id w.st.cache →
      (write_loop dev d buf fuel w).errno = GErr.noErr →
      CacheInv (write_loop dev d buf fuel w).content d.dev_id d.id
        (write_loop dev d buf fuel w).cache := by
  induction fuel with
  | zero =>
      intro w _ _ _ hc _
      exact hc
  | succ fuel ih =>
      intro w hL9 hL15 hnat hc hret
      simp only [write_loop] at hret ⊢
      by_cases h0 : w.size = 0
      · rw [if_pos h0] at hret ⊢
        exact hc
      · rw [if_neg h0] at hret ⊢
        by_cases h1 : w.real_offset ≠ 0 ∨ w.size < 2^d.log_sector_size
        · rw [if_pos h1] at hret ⊢
          obtain ⟨_, hfin, hcont⟩ := write_rmw_spec dev d buf w hL9 hL15 hnat
          cases hstep : write_rmw_step dev d buf w with
          | finish stf =>
              rw [hstep] at hret
              exact absurd hret (hfin stf hstep)
          | cont w1 =>
              rw [hstep] at hret
              obtain ⟨hnat1, hinv1⟩ := hcont w1 hstep
              exact ih w1 hL9 hL15 hnat1 (hinv1 hc) hret
        · rw [if_neg h1] at hret ⊢
          have hsz : 2^d.log_sector_size ≤ w.size := by
            push_neg at h1
            omega
          obtain ⟨_, hfin, hcont⟩ := write_bulk_spec dev d buf w hL9 hL15 hnat hsz
          cases hstep : write_bulk_step dev d buf w with
          | finish stf =>
              rw [hstep] at hret
              exact absurd hret (hfin stf hstep)
          | cont w1 =>
              rw [hstep] at hret
              obtain ⟨hnat1, hinv1⟩ := hcont w1 hstep
              exact ih w1 hL9 hL15 hnat1 (hinv1 hc) hret

/-- C1, counterexample: the aligned-bulk branch issues the driver write
BEFORE invalidating the overlapping cache cluster.  A successful aligned
one-sector write on the unpartitioned 512-byte-sector disk produces the
trace `[wr 0 1, inval 1 1 0]`: the invalidation of the cluster covering the
written bytes happens after the driver write covering them was issued, so
invalidation does not precede the write in the bulk branch. -/
theorem claim1_counterexample :
    (grub_disk_write devOkAll diskA stA 0 0 512 (fun _ => 7)).ret = GErr.noErr ∧
    (grub_disk_write devOkAll diskA stA 0 0 512 (fun _ => 7)).st.trace =
      [Ev.wr 0 1, Ev.inval 1 1 0] := by
  constructor
  · decide
  · decide

/-- C1, amended: (1) in the read-modify-write branch the invalidation of the
covering cluster does precede the driver write: after a successful inner
read the step's trace is driver reads, then the invalidation, then the
one-sector driver write; (2) in the aligned-bulk branch the order is
reversed: the trace is the bulk driver write first, followed by the
per-written-sector invalidation events only when the write succeeded (a
failed bulk write invalidates nothing); (3) the claimed consequence still
holds at request granularity: a write that returns GRUB_ERR_NONE leaves no
stale cache entry — starting from a coherent cache, every cache entry of the
disk still holds exactly the current device bytes of its cluster after the
write. -/
theorem claim1_amended :
    (∀ (dev : DevModel) (d : Disk) (buf : Nat → Nat) (w : WrSt),
      9 ≤ d.log_sector_size → d.log_sector_size ≤ 15 →
      (grub_disk_read dev { d with partition := [] } w.st w.sector 0
        (2^d.log_sector_size) (fun _ => 0)).ret = GErr.noErr →
      ∃ evs, (∀ e ∈ evs, Ev.isRead e) ∧
        (write_rmw_step dev d buf w).st.trace =
          w.st.trace ++ evs ++ [Ev.inval d.dev_id d.id w.sector,
            Ev.wr (transform_sector d w.sector) 1]) ∧
    (∀ (dev : DevModel) (d : Disk) (buf : Nat → Nat) (w : WrSt),
      (write_bulk_step dev d buf w).st.trace =
        w.st.trace ++ Ev.wr (transform_sector d w.sector)
            (w.size >>> d.log_sector_size) ::
          (if dev.wOk (transform_sector d w.sector)
              (w.size >>> d.log_sector_size) = true
           then invEvents d w.sector (w.size >>> d.log_sector_size) else [])) ∧
    (∀ (dev : DevModel) (d : Disk) (st : St) (sector offset size : Nat)
        (buf : Nat → Nat),
      9 ≤ d.log_sector_size → d.log_sector_size ≤ 15 →
      CacheInv st.content d.dev_id d.id st.cache →
      (grub_disk_write dev d st sector offset size buf).ret = GErr.noErr →
      CacheInv (grub_disk_write dev d st sector offset size buf).st.content
        d.dev_id d.id (grub_disk_write dev d st sector offset size buf).st.cache) := by
  refine ⟨?_, ?_, ?_⟩
  · intro dev d buf w hL9 hL15 hret
    exact write_rmw_trace dev d buf w hL9 hL15 hret
  · intro dev d buf w
    exact write_bulk_trace dev d buf w
  · intro dev d st sector offset size buf hL9 hL15 hc hret
    simp only [grub_disk_write] at hret ⊢
    generalize ha : grub_disk_adjust_range d sector offset size = adj at hret ⊢
    cases adj with
    | error e =>
        simp only [] at hret
        exact absurd hret (by decide)
    | ok sp =>
        obtain ⟨s1, o1⟩ := sp
        simp only [] at hret ⊢
        exact write_loop_inv dev d buf (size + 1) _ hL9 hL15
          (align_down_mod s1 (2^(d.log_sector_size - 9))) hc hret

/-- C1, witness: the amended theorem's coherence conjunct applies to the
counterexample write itself — the initial empty cache is coherent, the write
returns success, and so the final cache of disk `(1, 1)` is coherent with
the final device contents. -/
theorem claim1_witness :
    CacheInv (grub_disk_write devOkAll diskA stA 0 0 512 (fun _ => 7)).st.content 1 1
      (grub_disk_write devOkAll diskA stA 0 0 512 (fun _ => 7)).st.cache := by
  have h := claim1_amended.2.2 devOkAll diskA stA 0 0 512 (fun _ => 7)
    (by decide) (by decide)
    (fun i h1 h2 data hd => Option.noConfusion hd)
    (by decide)
  exact h
